import Mathlib

/-!
Verification development for the routee-compass routing engine.

This file gives a shallow embedding, in Lean 4, of the parts of the Rust
source that the specification claims talk about, and proves (or refutes)
each claim against that embedding.

Modelling conventions:
* Rust `f64` values that only ever hold finite numbers are modelled as `ℚ`
  (exact arithmetic; rounding is not modelled).
* Where IEEE special values (NaN, ±∞) are essential to a claim, a small
  float domain `F64` with constructors for finite/NaN/±∞ values is used;
  its arithmetic follows IEEE semantics on those constructors.
* Rust `HashMap` values are modelled as association lists: the list order
  stands for the map's (unspecified) iteration order, and two lists that
  are permutations of one another with the same key/value pairs represent
  the same map contents.
* Fallible Rust functions returning `Result` are modelled with `Except`.
-/

namespace Compass

/-! ## Graph (compass-core/src/model/graphv2/graph.rs)

`VertexId` and `EdgeId` are opaque integer indices; we model both as `ℕ`.
An adjacency row `HashMap<EdgeId, VertexId>` is an association list
`List (ℕ × ℕ)`; its list order models the hash map's iteration order.
-/

inductive GraphError where
  | EdgeAttributeNotFound (edge_id : ℕ)
  | VertexAttributeNotFound (vertex_id : ℕ)
  | VertexWithoutOutEdges (vertex_id : ℕ)
  | VertexWithoutInEdges (vertex_id : ℕ)
deriving DecidableEq, Repr

/-- Edge record (compass-core property::Edge): id, endpoints, distance in
meters and grade in per-mille, road class. -/
structure GEdge where
  edge_id : ℕ
  src_vertex_id : ℕ
  dst_vertex_id : ℕ
  distanceMeters : ℚ
  gradeMille : ℚ
  road_class : ℕ
deriving DecidableEq, Repr

/-- Vertex record (compass-core property::Vertex): id and lon/lat
coordinate in degrees. -/
structure GVertex where
  vertex_id : ℕ
  coordinate : ℚ × ℚ
deriving DecidableEq, Repr

/-- Graph (graph.rs lines 14-19): adjacency and reverse adjacency are
vectors of hash maps `EdgeId → VertexId`, modelled as assoc lists. -/
structure Graph where
  adj : List (List (ℕ × ℕ))
  rev : List (List (ℕ × ℕ))
  edges : List GEdge
  vertices : List GVertex
deriving DecidableEq, Repr

namespace Graph

/-- Embedding of `Graph::out_edges` (graph.rs lines 55-63): index the
adjacency vector by the vertex id; `None` becomes the
`VertexWithoutOutEdges` error, otherwise the hash map's keys are
collected in iteration order. -/
def out_edges (g : Graph) (src : ℕ) : Except GraphError (List ℕ) :=
  match g.adj.get? src with
  | none => .error (.VertexWithoutOutEdges src)
  | some out_map => .ok (out_map.map Prod.fst)

/-- Embedding of `Graph::in_edges` (graph.rs lines 64-72), symmetric to
`out_edges` over the reverse adjacency. -/
def in_edges (g : Graph) (src : ℕ) : Except GraphError (List ℕ) :=
  match g.rev.get? src with
  | none => .error (.VertexWithoutInEdges src)
  | some in_map => .ok (in_map.map Prod.fst)

/-- Two graphs hold the same adjacency map contents when each row of `adj`
and of `rev` is a permutation of the corresponding row of the other graph
(same key/value pairs, possibly different hash-map iteration order), and
edge and vertex attribute arrays coincide. Such graphs are
indistinguishable as inputs: they arise from the same ingested data under
different hash seeds. -/
def sameContents (g1 g2 : Graph) : Prop :=
  List.Forall₂ List.Perm g1.adj g2.adj ∧
  List.Forall₂ List.Perm g1.rev g2.rev ∧
  g1.edges = g2.edges ∧ g1.vertices = g2.vertices

end Graph

/-! ## CostAggregation (routee-compass-core/src/model/cost/cost_aggregation.rs)

`Cost` is a newtype over `f64` with `ZERO = 0`, `ONE = 1`, and
`Cost::new` wrapping a raw float; we model `Cost` as `ℚ` and `Cost::new`
as the identity. The aggregation input `&[(&String, Cost)]` becomes
`List (String × ℚ)`. -/

inductive CostAggregation where
  | Sum
  | Mul
deriving DecidableEq, Repr

namespace CostAggregation

/-- Embedding of `CostAggregation::agg` (cost_aggregation.rs lines 14-27):
`Sum` folds `+` from `Cost::ZERO`; `Mul` returns `Cost::ZERO` on an empty
input and otherwise folds `*` from `Cost::ONE`. -/
def agg (a : CostAggregation) (costs : List (String × ℚ)) : ℚ :=
  match a with
  | .Sum => costs.foldl (fun acc c => acc + c.2) 0
  | .Mul =>
    if costs.isEmpty then 0
    else costs.foldl (fun acc c => acc * c.2) 1

end CostAggregation

/-! ## TimeUnit (compass-core/src/model/units.rs)

The enum derives `Deserialize` with no `rename` attributes, so serde
accepts exactly the variant identifiers `"Hours"`, `"Seconds"`,
`"Milliseconds"` as strings. -/

inductive TimeUnit where
  | Hours
  | Seconds
  | Milliseconds
deriving DecidableEq, Repr

namespace TimeUnit

/-- Embedding of serde string deserialization for `TimeUnit`
(units.rs lines 7-12): a plain `#[derive(Deserialize)]` unit-variant enum
deserializes from exactly its variant names, spelled as written. -/
def fromString (s : String) : Option TimeUnit :=
  if s = "Hours" then some .Hours
  else if s = "Seconds" then some .Seconds
  else if s = "Milliseconds" then some .Milliseconds
  else none

end TimeUnit

/-! ## A small IEEE f64 domain

The energy traversal model can see IEEE special values (the spec talks
about NaN and +∞ predictions), so the values flowing through it are
modelled by `F64`: a finite value carried exactly as a rational, or one
of NaN, +∞, -∞. The arithmetic below follows IEEE-754 semantics on these
constructors (rounding of finite results is not modelled). -/

inductive F64 where
  | fin (q : ℚ)
  | nan
  | inf
  | ninf
deriving DecidableEq, Repr

namespace F64

/-- IEEE `<` on the modelled domain: any comparison with NaN is false. -/
def lt : F64 → F64 → Bool
  | fin a, fin b => decide (a < b)
  | fin _, inf => true
  | fin _, _ => false
  | ninf, fin _ => true
  | ninf, inf => true
  | ninf, _ => false
  | inf, _ => false
  | nan, _ => false

/-- IEEE addition on the modelled domain. -/
def add : F64 → F64 → F64
  | fin a, fin b => fin (a + b)
  | fin _, inf => inf
  | fin _, ninf => ninf
  | inf, fin _ => inf
  | ninf, fin _ => ninf
  | inf, inf => inf
  | ninf, ninf => ninf
  | inf, ninf => nan
  | ninf, inf => nan
  | nan, _ => nan
  | _, nan => nan

/-- IEEE multiplication on the modelled domain (`0 * ±∞ = NaN`). -/
def mul : F64 → F64 → F64
  | fin a, fin b => fin (a * b)
  | fin a, inf => if 0 < a then inf else if a < 0 then ninf else nan
  | fin a, ninf => if 0 < a then ninf else if a < 0 then inf else nan
  | inf, fin b => if 0 < b then inf else if b < 0 then ninf else nan
  | ninf, fin b => if 0 < b then ninf else if b < 0 then inf else nan
  | inf, inf => inf
  | inf, ninf => ninf
  | ninf, inf => ninf
  | ninf, ninf => inf
  | nan, _ => nan
  | _, nan => nan

/-- Real value of a finite `F64`; the non-finite values, which the
theorems below always exclude by hypothesis, are sent to 0. -/
noncomputable def toRealOrZero : F64 → ℝ
  | fin q => (q : ℝ)
  | _ => 0

/-- The largest finite `f64` (`std::f64::MAX`), exactly. -/
def f64MAX : ℚ := 2 ^ 1024 - 2 ^ 971

end F64

/-! ## RouteE random-forest traversal model
(compass-powertrain/src/routee/routee_random_forest.rs)

The random-forest regressor itself is an external artifact loaded from a
file; it enters the model as a black-box function
`(speed_mph, grade_percent) → energy_per_mile`, which may also fail
(smartcore's `predict` returns a `Result`). The velocity lookup model is
declared in compass-core but its source is not part of this repository
snapshot; following the spec (§4.3: "a velocity-lookup model writes
`time`; an energy model reads speed"), it is modelled from the spec as a
black-box per-edge speed in kph, with the same error channel the source
gives it. -/

inductive TraversalModelError where
  | NumericError (msg : String)
  | PredictionModel (msg : String)
  | FileReadError (path msg : String)
  | BuildError (msg : String)
deriving DecidableEq, Repr

inductive EnergyUnit where
  | GallonsGasoline
deriving DecidableEq, Repr

/-- Meters per mile, the exact conversion constant used by `uom`. -/
def metersPerMile : ℚ := 1609344 / 1000

/-- Kilometers per mile, the exact conversion constant used by `uom`. -/
def kmPerMile : ℚ := 1609344 / 1000000

/-- Model of `RouteERandomForestModel` (routee_random_forest.rs lines
19-24). `velocity` is the `VelocityLookupModel` service, modelled from
the spec as a per-edge speed lookup in kph (its `traversal_cost` returns
the speed as its cost). `predictRF` is the loaded random-forest
regressor. -/
structure RouteERandomForestModel where
  velocity : GEdge → Except TraversalModelError ℚ
  predictRF : ℚ → ℚ → Except String F64
  energy_unit : EnergyUnit
  minimum_energy_per_mile : F64

namespace RouteERandomForestModel

/-- Embedding of `RouteERandomForestModel::initial_state`
(routee_random_forest.rs lines 27-29): the single-entry zero state. -/
def initial_state : List F64 := [F64.fin 0]

/-- Embedding of `RouteERandomForestModel::traversal_cost`
(routee_random_forest.rs lines 44-76): look up the edge speed, convert
distance to miles, grade to percent and speed to mph, run the predictor
(its `Err` becomes `PredictionModel`), multiply energy/mile by miles,
clamp a negative product to zero, and add the result to state entry 0.
The source indexes `state[0]` unconditionally; the model reads the head
with a default, and every theorem about it supplies a non-empty state. -/
def traversal_cost (M : RouteERandomForestModel) (_src : GVertex)
    (edge : GEdge) (_dst : GVertex) (state : List F64) :
    Except TraversalModelError (F64 × List F64) :=
  match M.velocity edge with
  | .error e => .error e
  | .ok speed_kph =>
    let distance_mile : ℚ := edge.distanceMeters / metersPerMile
    let grade_percent : ℚ := edge.gradeMille / 10
    let speed_mph : ℚ := speed_kph / kmPerMile
    match M.predictRF speed_mph grade_percent with
    | .error e => .error (.PredictionModel e)
    | .ok energy_per_mile =>
      let energy_cost := energy_per_mile.mul (F64.fin distance_mile)
      let clamped := if energy_cost.lt (F64.fin 0) then F64.fin 0 else energy_cost
      .ok (clamped, state.set 0 ((state.headD (F64.fin 0)).add clamped))

/-- The integer sweep grid of `RouteERandomForestModel::new`
(routee_random_forest.rs lines 109-120): speeds 1..100 mph (exclusive)
crossed with grades -20..20 percent (exclusive), speed outer loop. -/
def sweepPoints : List (ℚ × ℚ) :=
  (List.range 99).flatMap fun i =>
    (List.range 40).map fun j => (((i : ℚ) + 1), ((j : ℚ) - 20))

/-- Embedding of the minimum-energy sweep in
`RouteERandomForestModel::new` (lines 104-120): starting from
`std::f64::MAX`, keep the smaller of the running minimum and each
prediction over the sweep grid; a prediction error aborts construction. -/
def newMinimum (pred : ℚ → ℚ → Except String F64) :
    Except TraversalModelError F64 :=
  sweepPoints.foldl
    (fun acc p =>
      match acc with
      | .error e => .error e
      | .ok m =>
        match pred p.1 p.2 with
        | .error e => .error (.PredictionModel e)
        | .ok v => .ok (if v.lt m then v else m))
    (.ok (F64.fin F64.f64MAX))

/-- Embedding of `RouteERandomForestModel::new` (lines 89-138) after the
file read: run the sweep and store its minimum in the model. -/
def new (velocity : GEdge → Except TraversalModelError ℚ)
    (pred : ℚ → ℚ → Except String F64) :
    Except TraversalModelError RouteERandomForestModel :=
  (newMinimum pred).map fun m =>
    { velocity := velocity, predictRF := pred,
      energy_unit := .GallonsGasoline, minimum_energy_per_mile := m }

end RouteERandomForestModel

/-- Modelled from the spec: `coord_distance_km`
(compass-core/src/util/geo/haversine.rs is not part of this repository
snapshot). The great-circle haversine distance in kilometers between two
(lon, lat) coordinates given in degrees, with mean earth radius 6371 km. -/
noncomputable def coord_distance_km (c1 c2 : ℚ × ℚ) : ℝ :=
  let lam1 : ℝ := (c1.1 : ℝ) * Real.pi / 180
  let phi1 : ℝ := (c1.2 : ℝ) * Real.pi / 180
  let lam2 : ℝ := (c2.1 : ℝ) * Real.pi / 180
  let phi2 : ℝ := (c2.2 : ℝ) * Real.pi / 180
  let a : ℝ := Real.sin ((phi2 - phi1) / 2) ^ 2 +
    Real.cos phi1 * Real.cos phi2 * Real.sin ((lam2 - lam1) / 2) ^ 2
  6371 * (2 * Real.arcsin (Real.sqrt a))

namespace RouteERandomForestModel

/-- Embedding of `RouteERandomForestModel::cost_estimate`
(routee_random_forest.rs lines 30-43): the haversine distance between the
two vertices, converted to miles, times the stored minimum energy per
mile (the `EnergyUnit` match has a single arm). -/
noncomputable def cost_estimate (M : RouteERandomForestModel)
    (src dst : GVertex) : ℝ :=
  (coord_distance_km src.coordinate dst.coordinate / (kmPerMile : ℝ)) *
    M.minimum_energy_per_mile.toRealOrZero

/-- The cost of realizing a path: traverse the listed `(src, edge, dst)`
triplets in order, threading the state and accumulating the per-edge
`total_cost` values with f64 addition, as the search does. -/
def realizedCost (M : RouteERandomForestModel) :
    List (GVertex × GEdge × GVertex) → List F64 → F64 →
    Except TraversalModelError (F64 × List F64)
  | [], state, acc => .ok (acc, state)
  | t :: rest, state, acc =>
    match M.traversal_cost t.1 t.2.1 t.2.2 state with
    | .error e => .error e
    | .ok (c, s2) => realizedCost M rest s2 (acc.add c)

end RouteERandomForestModel

/-! ## Bilinear interpolation
(routee-compass-powertrain/src/routee/prediction/interpolation/utils.rs)

Grid coordinates are `OrderedFloat<f64>` holding finite values; they are
modelled as `ℚ`. The `while low < high` binary-search loop decreases
`high - low` at every iteration, so running it with `arr.len()` units of
fuel reaches its fixed point; `find_nearest_index` hands it exactly that
much. -/

/-- The loop body of `find_nearest_index` (utils.rs lines 18-26), with an
explicit fuel argument bounding the number of iterations. Out-of-range
reads, which the source would panic on and the theorems exclude, read a
default of 0. -/
def fnAux (arr : List ℚ) (target : ℚ) : ℕ → ℕ → ℕ → ℕ
  | 0, low, _ => low
  | fuel + 1, low, high =>
    if low < high then
      let mid := low + (high - low) / 2
      if target ≤ arr.getD mid 0 then fnAux arr target fuel low mid
      else fnAux arr target fuel (mid + 1) high
    else low

/-- The final value of the loop variable `low` in `find_nearest_index`:
the loop runs with `low = 0`, `high = arr.len() - 1`, and fuel
`arr.len()`, which exceeds the iteration count. -/
def fnLow (arr : List ℚ) (target : ℚ) : ℕ :=
  fnAux arr target arr.length 0 (arr.length - 1)

/-- Embedding of `find_nearest_index` (utils.rs lines 14-33): binary
search for the lower bound of `target`, then step back by one when the
found element is at least `target` and is not the first. -/
def find_nearest_index (arr : List ℚ) (target : ℚ) : ℕ :=
  if 0 < fnLow arr target ∧ target ≤ arr.getD (fnLow arr target) 0 then
    fnLow arr target - 1
  else fnLow arr target

/-- Model of `BilinearInterp` (utils.rs lines 35-39). -/
structure BilinearInterp where
  x : List ℚ
  y : List ℚ
  values : List (List ℚ)
deriving DecidableEq, Repr

namespace BilinearInterp

/-- Embedding of `BilinearInterp::new` (utils.rs lines 42-58): dimension
checks, then both coordinate axes must be strictly increasing
(`windows(2).all(|w| w[0] < w[1])` is `List.Chain'`). -/
def new (x y : List ℚ) (values : List (List ℚ)) :
    Except String BilinearInterp :=
  if x.length ≠ values.length then
    .error "Supplied x must have same dimensionality as values"
  else if y.length ≠ (values.headD []).length then
    .error "Supplied y must have same dimensionality as values"
  else if ¬ List.Chain' (· < ·) x then
    .error "Supplied x coordinates must be sorted and non-repeating"
  else if ¬ List.Chain' (· < ·) y then
    .error "Supplied y coordinates must be sorted and non-repeating"
  else .ok ⟨x, y, values⟩

/-- Embedding of `BilinearInterp::interpolate` (utils.rs lines 60-81):
find the nearest grid indices on each axis, reject when either lands on
the last cell boundary, otherwise blend the four surrounding grid values
with bilinear weights. -/
def interpolate (g : BilinearInterp) (x y : ℚ) : Except String ℚ :=
  let x_index := find_nearest_index g.x x
  let y_index := find_nearest_index g.y y
  if g.x.length - 1 ≤ x_index ∨ g.y.length - 1 ≤ y_index then
    .error "Cannot interpolate outside of grid bounds"
  else
    let x0 := g.x.getD x_index 0
    let x1 := g.x.getD (x_index + 1) 0
    let y0 := g.y.getD y_index 0
    let y1 := g.y.getD (y_index + 1) 0
    let q11 := (g.values.getD x_index []).getD y_index 0
    let q12 := (g.values.getD x_index []).getD (y_index + 1) 0
    let q21 := (g.values.getD (x_index + 1) []).getD y_index 0
    let q22 := (g.values.getD (x_index + 1) []).getD (y_index + 1) 0
    let fxy1 := (x1 - x) / (x1 - x0) * q11 + (x - x0) / (x1 - x0) * q21
    let fxy2 := (x1 - x) / (x1 - x0) * q12 + (x - x0) / (x1 - x0) * q22
    .ok ((y1 - y) / (y1 - y0) * fxy1 + (y - y0) / (y1 - y0) * fxy2)

end BilinearInterp

/-! ## StateModel (routee-compass-core/src/model/state/state_model.rs)

`StateFeature` is declared in a module that is not part of this
repository snapshot; since the state-model claims quantify over features
generically, the embedding is polymorphic in the feature type `F`, and
the feature-specific operations (initial value, unit conversion, codec)
enter as function parameters. The variant layout of `StateModel` and the
operations `new`, `len`, `contains_key`, `iter` (via the `StateModelIter`
loop), `to_vec`, `initial_state`, `extend`, the typed getter/setter
composition pattern and `IntoIterator` are embedded from the source;
`InternalStateModelOps` (`get`, `get_index`, `get_feature`) and the
`get_value`/`update_state` helpers are not in the snapshot and are
modelled from the spec ("`StateModel`: ordered mapping
`feature_name → (index, StateFeature)`"; "an unknown name returns
`UnknownFeature`; a state vector of wrong length relative to the model
yields `StateVectorSizeMismatch`"). A `HashMap` is again an association
list in iteration order. -/

inductive StateError where
  | UnknownFeature (name : String)
  | IncompatibleFeatureType (name : String)
  | StateVectorSizeMismatch
  | CodecError (msg : String)
  | BuildError (msg : String)
deriving DecidableEq, Repr

/-- Model of `IndexedStateFeature`: a feature together with its state
vector index. -/
structure IndexedStateFeature (F : Type) where
  index : ℕ
  feature : F
deriving DecidableEq, Repr

/-- Model of the `StateModel` enum (state_model.rs lines 19-49): four
small-arity specializations plus the general indexed hash map. -/
inductive StateModel (F : Type) where
  | OneFeature (key : String) (value : F)
  | TwoFeatures (k1 k2 : String) (v1 v2 : F)
  | ThreeFeatures (k1 k2 k3 : String) (v1 v2 v3 : F)
  | FourFeatures (k1 k2 k3 k4 : String) (v1 v2 v3 v4 : F)
  | NFeatures (m : List (String × IndexedStateFeature F))
deriving DecidableEq, Repr

namespace StateModel

variable {F : Type}

/-- Embedding of `StateModel::len` (state_model.rs lines 151-159). -/
def len : StateModel F → ℕ
  | OneFeature _ _ => 1
  | TwoFeatures _ _ _ _ => 2
  | ThreeFeatures _ _ _ _ _ _ => 3
  | FourFeatures _ _ _ _ _ _ _ _ => 4
  | NFeatures m => m.length

/-- Modelled from the spec: `InternalStateModelOps::get` (not in the
snapshot) retrieves the feature entry at a state-vector index: the k-th
key/value of a small variant, or the hash-map entry whose stored index
matches. -/
def get : StateModel F → ℕ → Option (String × F)
  | OneFeature k v, 0 => some (k, v)
  | TwoFeatures k1 _ v1 _, 0 => some (k1, v1)
  | TwoFeatures _ k2 _ v2, 1 => some (k2, v2)
  | ThreeFeatures k1 _ _ v1 _ _, 0 => some (k1, v1)
  | ThreeFeatures _ k2 _ _ v2 _, 1 => some (k2, v2)
  | ThreeFeatures _ _ k3 _ _ v3, 2 => some (k3, v3)
  | FourFeatures k1 _ _ _ v1 _ _ _, 0 => some (k1, v1)
  | FourFeatures _ k2 _ _ _ v2 _ _, 1 => some (k2, v2)
  | FourFeatures _ _ k3 _ _ _ v3 _, 2 => some (k3, v3)
  | FourFeatures _ _ _ k4 _ _ _ v4, 3 => some (k4, v4)
  | NFeatures m, i =>
    (m.find? (fun p => p.2.index == i)).map (fun p => (p.1, p.2.feature))
  | _, _ => none

/-- Modelled from the spec: `InternalStateModelOps::get_index` (not in
the snapshot) resolves a feature name to its state-vector index; an
unknown name is `UnknownFeature`. -/
def get_index : StateModel F → String → Except StateError ℕ
  | OneFeature k _, n => if n == k then .ok 0 else .error (.UnknownFeature n)
  | TwoFeatures k1 k2 _ _, n =>
    if n == k1 then .ok 0 else if n == k2 then .ok 1
    else .error (.UnknownFeature n)
  | ThreeFeatures k1 k2 k3 _ _ _, n =>
    if n == k1 then .ok 0 else if n == k2 then .ok 1
    else if n == k3 then .ok 2 else .error (.UnknownFeature n)
  | FourFeatures k1 k2 k3 k4 _ _ _ _, n =>
    if n == k1 then .ok 0 else if n == k2 then .ok 1
    else if n == k3 then .ok 2 else if n == k4 then .ok 3
    else .error (.UnknownFeature n)
  | NFeatures m, n =>
    match m.find? (fun p => n == p.1) with
    | some p => .ok p.2.index
    | none => .error (.UnknownFeature n)

/-- Modelled from the spec: `InternalStateModelOps::get_feature` (not in
the snapshot) resolves a feature name to its feature declaration. -/
def get_feature : StateModel F → String → Except StateError F
  | OneFeature k v, n => if n == k then .ok v else .error (.UnknownFeature n)
  | TwoFeatures k1 k2 v1 v2, n =>
    if n == k1 then .ok v1 else if n == k2 then .ok v2
    else .error (.UnknownFeature n)
  | ThreeFeatures k1 k2 k3 v1 v2 v3, n =>
    if n == k1 then .ok v1 else if n == k2 then .ok v2
    else if n == k3 then .ok v3 else .error (.UnknownFeature n)
  | FourFeatures k1 k2 k3 k4 v1 v2 v3 v4, n =>
    if n == k1 then .ok v1 else if n == k2 then .ok v2
    else if n == k3 then .ok v3 else if n == k4 then .ok v4
    else .error (.UnknownFeature n)
  | NFeatures m, n =>
    match m.find? (fun p => n == p.1) with
    | some p => .ok p.2.feature
    | none => .error (.UnknownFeature n)

/-- Embedding of `StateModel::contains_key` (state_model.rs lines
165-167): a name is contained when `get_index` succeeds. -/
def contains_key (m : StateModel F) (n : String) : Bool :=
  (m.get_index n).isOk

/-- Embedding of the `StateModelIter` loop (state_model.rs lines
527-546): starting at index 0, yield `get index` while it succeeds and
`index < len`, with fuel bounding the iteration count. -/
def iterAux (m : StateModel F) : ℕ → ℕ → List (String × F)
  | 0, _ => []
  | fuel + 1, idx =>
    if idx < m.len then
      match m.get idx with
      | some t => t :: iterAux m fuel (idx + 1)
      | none => []
    else []

/-- Embedding of `StateModel::iter` (state_model.rs lines 186-193):
features in state-vector index order. -/
def iter (m : StateModel F) : List (String × F) :=
  iterAux m m.len 0

/-- Embedding of `StateModel::to_vec` (state_model.rs lines 171-184). -/
def to_vec (m : StateModel F) : List (String × IndexedStateFeature F) :=
  (List.enumFrom 0 m.iter).map (fun p => (p.2.1, ⟨p.1, p.2.2⟩))

/-- Embedding of `StateModel::initial_state` (state_model.rs lines
206-213), parameterized by the feature's `get_initial` accessor. -/
def initial_state (ini : F → Except StateError ℚ) (m : StateModel F) :
    Except StateError (List ℚ) :=
  m.iter.mapM (fun p => ini p.2)

/-- Modelled from the spec: the internal `get_value` helper (not in the
snapshot): index the state vector at the feature's index; a too-short
state is `StateVectorSizeMismatch`. -/
def get_value (m : StateModel F) (state : List ℚ) (n : String) :
    Except StateError ℚ :=
  match m.get_index n with
  | .error e => .error e
  | .ok i =>
    match state.get? i with
    | some v => .ok v
    | none => .error .StateVectorSizeMismatch

/-- Modelled from the spec: the internal `update_state` helper with the
`Replace` operation (not in the snapshot): overwrite the state entry at
the feature's index. -/
def update_state (m : StateModel F) (state : List ℚ) (n : String)
    (value : ℚ) : Except StateError (List ℚ) :=
  match m.get_index n with
  | .error e => .error e
  | .ok i =>
    if i < state.length then .ok (state.set i value)
    else .error .StateVectorSizeMismatch

/-- The composition pattern of the typed getters `get_distance` /
`get_time` / `get_energy` / `get_custom_*` (state_model.rs lines
225-333): read the raw value, fetch the feature, and convert through the
feature's unit or codec, abstracted here as the `dec` parameter (which
may fail with `IncompatibleFeatureType` or `CodecError`). -/
def getTyped (m : StateModel F) (dec : F → Except StateError (ℚ → ℚ))
    (state : List ℚ) (n : String) : Except StateError ℚ :=
  match m.get_value state n with
  | .error e => .error e
  | .ok v =>
    match m.get_feature n with
    | .error e => .error e
    | .ok f =>
      match dec f with
      | .error e => .error e
      | .ok conv => .ok (conv v)

/-- The composition pattern of the typed setters `set_distance` /
`set_time` / `set_energy` / `set_custom_*` (state_model.rs lines
418-503): fetch the feature, convert the incoming value through its unit
or codec (`enc`), and overwrite the state entry. -/
def setTyped (m : StateModel F) (enc : F → Except StateError (ℚ → ℚ))
    (state : List ℚ) (n : String) (value : ℚ) :
    Except StateError (List ℚ) :=
  match m.get_feature n with
  | .error e => .error e
  | .ok f =>
    match enc f with
    | .error e => .error e
    | .ok conv => m.update_state state n (conv value)

/-- Sorting by feature name, ascending (`sorted_by_key` in
`StateModel::new`, state_model.rs lines 62-65). -/
def sortFeatures (l : List (String × F)) : List (String × F) :=
  l.mergeSort (fun a b => decide (a.1 ≤ b.1))

/-- The indexed entry list of the `NFeatures` branch of
`StateModel::new` (state_model.rs lines 97-110): enumerate the sorted
features and pair each name with its index. -/
def enumFeatures (l : List (String × F)) :
    List (String × IndexedStateFeature F) :=
  (List.enumFrom 0 l).map (fun p => (p.2.1, ⟨p.1, p.2.2⟩))

/-- The variant dispatch of `StateModel::new` (state_model.rs lines
67-111) on an already-sorted feature list. -/
def buildSorted : List (String × F) → StateModel F
  | [] => .NFeatures []
  | [(k, v)] => .OneFeature k v
  | [(k1, v1), (k2, v2)] => .TwoFeatures k1 k2 v1 v2
  | [(k1, v1), (k2, v2), (k3, v3)] => .ThreeFeatures k1 k2 k3 v1 v2 v3
  | [(k1, v1), (k2, v2), (k3, v3), (k4, v4)] =>
    .FourFeatures k1 k2 k3 k4 v1 v2 v3 v4
  | l => .NFeatures (enumFeatures l)

/-- Embedding of `StateModel::new` (state_model.rs lines 60-112): sort
by name, then dispatch on the arity. -/
def new (features : List (String × F)) : StateModel F :=
  buildSorted (sortFeatures features)

/-- The `NFeatures` indexed-map form built from the same feature list:
what `StateModel::new` would produce if the small-arity specializations
did not exist (the `_` branch of the match applied to the sorted list). -/
def nFeaturesForm (features : List (String × F)) : StateModel F :=
  .NFeatures (enumFeatures (sortFeatures features))

/-- Embedding of `IntoIterator for StateModel` (state_model.rs lines
548-595): the small variants list their entries with indices 0..3; the
hash-map variant sorts its entries by stored index. -/
def intoIter : StateModel F → List (String × IndexedStateFeature F)
  | OneFeature k v => [(k, ⟨0, v⟩)]
  | TwoFeatures k1 k2 v1 v2 => [(k1, ⟨0, v1⟩), (k2, ⟨1, v2⟩)]
  | ThreeFeatures k1 k2 k3 v1 v2 v3 =>
    [(k1, ⟨0, v1⟩), (k2, ⟨1, v2⟩), (k3, ⟨2, v3⟩)]
  | FourFeatures k1 k2 k3 k4 v1 v2 v3 v4 =>
    [(k1, ⟨0, v1⟩), (k2, ⟨1, v2⟩), (k3, ⟨2, v3⟩), (k4, ⟨3, v4⟩)]
  | NFeatures m => m.mergeSort (fun a b => decide (a.2.index ≤ b.2.index))

/-- Embedding of `StateModel::extend` (state_model.rs lines 123-149):
names of `entries` already present in the model are dropped from the
model's features, the remainder is chained with `entries`, and the
result is rebuilt through `StateModel::new` (the `From` impl, lines
660-664). -/
def extend (m : StateModel F) (entries : List (String × F)) :
    Except StateError (StateModel F) :=
  let overwrite_keys :=
    (entries.filter (fun e => (m.get_feature e.1).isOk)).map Prod.fst
  let all_features :=
    (m.iter.filter (fun p => !(overwrite_keys.contains p.1))) ++ entries
  .ok (new all_features)

end StateModel

end Compass

namespace Compass

/-! ## Helper lemmas -/

/-- Pointwise `get?` relation extracted from a `Forall₂` between lists. -/
theorem forall₂_get?_rel {α : Type} {R : α → α → Prop} :
    ∀ {l1 l2 : List α}, List.Forall₂ R l1 l2 → ∀ i r1 r2,
      l1.get? i = some r1 → l2.get? i = some r2 → R r1 r2 := by
  intro l1 l2 h
  induction h with
  | nil => intro i r1 r2 h1; simp at h1
  | cons hr _ ih =>
    intro i r1 r2 h1 h2
    cases i with
    | zero =>
      simp only [List.get?] at h1 h2
      cases h1; cases h2; exact hr
    | succ n => exact ih n r1 r2 h1 h2

/-- Folding addition over pair values equals the starting value plus the
sum of the second components. -/
theorem foldl_add_snd (l : List (String × ℚ)) (q : ℚ) :
    l.foldl (fun acc c => acc + c.2) q = q + (l.map Prod.snd).sum := by
  induction l generalizing q with
  | nil => simp
  | cons x xs ih => simp [ih, add_assoc]

/-- Folding multiplication over pair values equals the starting value
times the product of the second components. -/
theorem foldl_mul_snd (l : List (String × ℚ)) (q : ℚ) :
    l.foldl (fun acc c => acc * c.2) q = q * (l.map Prod.snd).prod := by
  induction l generalizing q with
  | nil => simp
  | cons x xs ih => simp [ih, mul_assoc]

/-! ## Claim C1: determinism of edge enumeration

The spec says identical inputs yield identical expansion order. The edge
lists consumed by expansion come from `Graph::out_edges`, which collects
the keys of a `HashMap` in iteration order; that order is not a function
of the map's contents (it depends on the hash seed and insertion
history). Two graphs with the same adjacency contents can therefore hand
the search different edge orders. -/

/-- C1 counterexample: two graphs with identical adjacency-map contents
(row 0 holds exactly the pairs `(0 ↦ 1)` and `(1 ↦ 2)` in both) on which
`out_edges` returns differently ordered edge lists, so the expansion
order at vertex 0 is not determined by the graph contents. -/
theorem C1_determinism_counterexample :
    Graph.sameContents
      ⟨[[(0, 1), (1, 2)]], [[]], [], []⟩ ⟨[[(1, 2), (0, 1)]], [[]], [], []⟩ ∧
    Graph.out_edges ⟨[[(0, 1), (1, 2)]], [[]], [], []⟩ 0 ≠
      Graph.out_edges ⟨[[(1, 2), (0, 1)]], [[]], [], []⟩ 0 := by
  constructor
  · exact ⟨.cons (List.Perm.swap (1, 2) (0, 1) []) .nil,
      .cons (List.Perm.refl []) .nil, rfl, rfl⟩
  · intro h
    exact absurd (Except.ok.inj h) (by decide)

/-- C1 amended: on graphs with the same adjacency contents, `out_edges`
and `in_edges` succeed or fail together, and on success they return the
same incident-edge collection up to permutation; the enumeration order
itself follows the hash map's iteration order and is not determined by
the contents. (For one fixed in-memory graph value the result is a fixed
list, so a single process re-iterating the same map sees one order.) -/
theorem C1_determinism_amended (g1 g2 : Graph) (v : ℕ)
    (h : Graph.sameContents g1 g2) :
    ((g1.out_edges v).isOk ↔ (g2.out_edges v).isOk) ∧
    (∀ l1 l2, g1.out_edges v = .ok l1 → g2.out_edges v = .ok l2 → l1.Perm l2) ∧
    ((g1.in_edges v).isOk ↔ (g2.in_edges v).isOk) ∧
    (∀ l1 l2, g1.in_edges v = .ok l1 → g2.in_edges v = .ok l2 → l1.Perm l2) := by
  obtain ⟨hadj, hrev, -, -⟩ := h
  have hlen1 : g1.adj.length = g2.adj.length := hadj.length_eq
  have hlen2 : g1.rev.length = g2.rev.length := hrev.length_eq
  refine ⟨?_, ?_, ?_, ?_⟩
  · unfold Graph.out_edges
    rcases h1 : g1.adj.get? v with _ | r1 <;> rcases h2 : g2.adj.get? v with _ | r2
    · simp
    · rw [List.get?_eq_none] at h1
      rw [hlen1] at h1
      rw [List.get?_eq_none.mpr h1] at h2
      cases h2
    · rw [List.get?_eq_none] at h2
      rw [← hlen1] at h2
      rw [List.get?_eq_none.mpr h2] at h1
      cases h1
    · rfl
  · intro l1 l2 h1 h2
    unfold Graph.out_edges at h1 h2
    rcases ha : g1.adj.get? v with _ | r1 <;> rw [ha] at h1
    · cases h1
    rcases hb : g2.adj.get? v with _ | r2 <;> rw [hb] at h2
    · cases h2
    cases h1; cases h2
    exact (forall₂_get?_rel hadj v r1 r2 ha hb).map Prod.fst
  · unfold Graph.in_edges
    rcases h1 : g1.rev.get? v with _ | r1 <;> rcases h2 : g2.rev.get? v with _ | r2
    · simp
    · rw [List.get?_eq_none] at h1
      rw [hlen2] at h1
      rw [List.get?_eq_none.mpr h1] at h2
      cases h2
    · rw [List.get?_eq_none] at h2
      rw [← hlen2] at h2
      rw [List.get?_eq_none.mpr h2] at h1
      cases h1
    · rfl
  · intro l1 l2 h1 h2
    unfold Graph.in_edges at h1 h2
    rcases ha : g1.rev.get? v with _ | r1 <;> rw [ha] at h1
    · cases h1
    rcases hb : g2.rev.get? v with _ | r2 <;> rw [hb] at h2
    · cases h2
    cases h1; cases h2
    exact (forall₂_get?_rel hrev v r1 r2 ha hb).map Prod.fst

/-- Witness for the amended C1 on the two concrete graphs of the
counterexample scenario: the differently ordered edge lists are
permutations of one another. -/
theorem C1_determinism_amended_witness :
    List.Perm [0, 1] [1, 0] :=
  (C1_determinism_amended
      ⟨[[(0, 1), (1, 2)]], [[]], [], []⟩ ⟨[[(1, 2), (0, 1)]], [[]], [], []⟩ 0
      ⟨.cons (List.Perm.swap (1, 2) (0, 1) []) .nil,
        .cons (List.Perm.refl []) .nil, rfl, rfl⟩).2.1 [0, 1] [1, 0] rfl rfl

/-! ## Claim C3: aggregation identities -/

/-- C3: `Sum` over an empty input is 0, `Mul` over an empty input is 0,
`Sum [a, b] = a + b`, `Mul [a, b] = a * b`, and both aggregations are
commutative and associative over their inputs: permuting the input list
(which is how order and grouping of the underlying `+`/`*` folds can
change) never changes the aggregate. -/
theorem C3_aggregation_identities :
    (CostAggregation.agg .Sum [] = 0) ∧
    (CostAggregation.agg .Mul [] = 0) ∧
    (∀ (n1 n2 : String) (a b : ℚ),
      CostAggregation.agg .Sum [(n1, a), (n2, b)] = a + b) ∧
    (∀ (n1 n2 : String) (a b : ℚ),
      CostAggregation.agg .Mul [(n1, a), (n2, b)] = a * b) ∧
    (∀ (t : CostAggregation) (l l' : List (String × ℚ)),
      l.Perm l' → CostAggregation.agg t l = CostAggregation.agg t l') := by
  refine ⟨rfl, rfl, ?_, ?_, ?_⟩
  · intro n1 n2 a b
    simp [CostAggregation.agg]
  · intro n1 n2 a b
    simp [CostAggregation.agg]
  · intro t l l' hperm
    cases t with
    | Sum =>
      simp only [CostAggregation.agg, foldl_add_snd]
      rw [(hperm.map Prod.snd).sum_eq]
    | Mul =>
      rcases l with _ | ⟨x, xs⟩
      · rw [← hperm.nil_eq]
      · have hne : l' ≠ [] := fun he => by
          have := hperm.length_eq
          rw [he] at this
          simp at this
        simp only [CostAggregation.agg]
        rw [if_neg (by simp : ¬((x :: xs).isEmpty = true)),
          if_neg (by simp [List.isEmpty_iff, hne])]
        rw [foldl_mul_snd, foldl_mul_snd, (hperm.map Prod.snd).prod_eq]

/-- Witness for C3: permutation invariance applied to a concrete
two-entry input for the `Sum` aggregation. -/
theorem C3_aggregation_identities_witness :
    CostAggregation.agg .Sum [("a", (2 : ℚ)), ("b", 3)] =
      CostAggregation.agg .Sum [("b", (3 : ℚ)), ("a", 2)] :=
  C3_aggregation_identities.2.2.2.2 .Sum _ _ (List.Perm.swap ("b", 3) ("a", 2) [])

/-! ## Claim C9: time-unit strings -/

/-- C9 counterexample: of the four spec-listed lowercase strings, none
deserializes; in particular `"minutes"` has no corresponding variant at
all, so the claim fails at the concrete input `"minutes"`. -/
theorem C9_time_units_counterexample :
    TimeUnit.fromString "minutes" = none ∧
    TimeUnit.fromString "seconds" = none ∧
    TimeUnit.fromString "hours" = none ∧
    TimeUnit.fromString "milliseconds" = none := by
  refine ⟨?_, ?_, ?_, ?_⟩ <;> rfl

/-- C9 amended: the `TimeUnit` enum deserializes exactly the three strings
`"Hours"`, `"Seconds"` and `"Milliseconds"` (its variant identifiers);
there is no minutes unit, and the lowercase spellings in the spec's
configuration table are not recognized. -/
theorem C9_time_units_amended :
    TimeUnit.fromString "Hours" = some .Hours ∧
    TimeUnit.fromString "Seconds" = some .Seconds ∧
    TimeUnit.fromString "Milliseconds" = some .Milliseconds ∧
    (∀ s, (TimeUnit.fromString s).isSome ↔
      s = "Hours" ∨ s = "Seconds" ∨ s = "Milliseconds") := by
  refine ⟨rfl, rfl, rfl, ?_⟩
  intro s
  unfold TimeUnit.fromString
  by_cases h1 : s = "Hours" <;> by_cases h2 : s = "Seconds" <;>
    by_cases h3 : s = "Milliseconds" <;> simp [h1, h2, h3]

/-- Witness for the amended C9: the universally quantified
characterization evaluated at the concrete string `"Seconds"`. -/
theorem C9_time_units_amended_witness :
    (TimeUnit.fromString "Seconds").isSome :=
  (C9_time_units_amended.2.2.2 "Seconds").mpr (Or.inr (Or.inl rfl))

/-! ## F64 helper lemmas -/

/-- Adding a finite zero is the identity on every `F64` value. -/
theorem F64.add_fin_zero (x : F64) : x.add (F64.fin 0) = x := by
  cases x <;> simp [F64.add]

/-- Adding NaN produces NaN from every `F64` value. -/
theorem F64.add_nan (x : F64) : x.add F64.nan = F64.nan := by
  cases x <;> rfl

/-- Multiplying NaN on the left produces NaN. -/
theorem F64.nan_mul (x : F64) : F64.nan.mul x = F64.nan := by
  cases x <;> rfl

/-- Comparisons with NaN on the left are false. -/
theorem F64.nan_lt (x : F64) : F64.nan.lt x = false := by
  cases x <;> rfl

/-- Comparisons with +∞ on the left are false. -/
theorem F64.inf_lt (x : F64) : F64.inf.lt x = false := by
  cases x <;> rfl

/-! ## Claim C4: negative incremental energy is clamped to zero -/

/-- C4: whenever the predictor output times the edge length in miles is
negative, `traversal_cost` clamps the increment to zero: it succeeds, the
returned `total_cost` is 0, and the energy entry of the state (slot 0) is
unchanged. -/
theorem C4_negative_energy_clamped (M : RouteERandomForestModel)
    (src dst : GVertex) (edge : GEdge) (s0 : F64) (rest : List F64)
    (sk : ℚ) (ep : F64)
    (hv : M.velocity edge = .ok sk)
    (hp : M.predictRF (sk / kmPerMile) (edge.gradeMille / 10) = .ok ep)
    (hneg : (ep.mul (F64.fin (edge.distanceMeters / metersPerMile))).lt
      (F64.fin 0) = true) :
    M.traversal_cost src edge dst (s0 :: rest) = .ok (F64.fin 0, s0 :: rest) := by
  unfold RouteERandomForestModel.traversal_cost
  rw [hv]
  dsimp only
  rw [hp]
  dsimp only
  simp [hneg, F64.add_fin_zero]

/-- Witness for C4: a predictor returning -0.01 gallons per mile on a
one-mile edge yields zero cost and an unchanged state. -/
theorem C4_negative_energy_clamped_witness :
    RouteERandomForestModel.traversal_cost
      ⟨fun _ => .ok 10, fun _ _ => .ok (F64.fin (-1 / 100)),
        .GallonsGasoline, F64.fin 0⟩
      ⟨0, (0, 0)⟩ ⟨0, 0, 1, metersPerMile, 0, 2⟩ ⟨1, (1, 0)⟩
      [F64.fin 5] = .ok (F64.fin 0, [F64.fin 5]) :=
  C4_negative_energy_clamped
    ⟨fun _ => .ok 10, fun _ _ => .ok (F64.fin (-1 / 100)),
      .GallonsGasoline, F64.fin 0⟩
    ⟨0, (0, 0)⟩ ⟨1, (1, 0)⟩ ⟨0, 0, 1, metersPerMile, 0, 2⟩
    (F64.fin 5) [] 10 (F64.fin (-1 / 100)) rfl rfl
    (by simp only [F64.mul, F64.lt, decide_eq_true_eq]
        norm_num [metersPerMile])

/-! ## Claim C5: NaN / +∞ predictions

The source maps a predictor `Err` to `TraversalModelError::PredictionModel`
but performs no finiteness check on a predictor value: a NaN or +∞
energy-per-mile prediction flows through the clamp (every NaN comparison
is false) into the returned cost and state. -/

/-- C5 counterexample: with a predictor that returns NaN as its value on
a one-mile edge, `traversal_cost` returns `Ok` carrying NaN in both the
total cost and the state, instead of failing. -/
theorem C5_nan_prediction_counterexample :
    RouteERandomForestModel.traversal_cost
      ⟨fun _ => .ok 10, fun _ _ => .ok F64.nan, .GallonsGasoline, F64.fin 0⟩
      ⟨0, (0, 0)⟩ ⟨0, 0, 1, metersPerMile, 0, 2⟩ ⟨1, (1, 0)⟩
      [F64.fin 0] = .ok (F64.nan, [F64.nan]) := by
  unfold RouteERandomForestModel.traversal_cost
  dsimp only
  simp [F64.nan_mul, F64.nan_lt, F64.add_nan]

/-- C5 amended: only a predictor *error* fails the traversal, as
`PredictionModel` (there is no `PredictionInvalid` variant); a NaN
prediction value propagates into an `Ok` result whose cost and energy
entry are NaN, and a +∞ prediction on a positive-length edge propagates
into an `Ok` result whose cost is +∞. -/
theorem C5_prediction_error_amended :
    (∀ (M : RouteERandomForestModel) (src dst : GVertex) (edge : GEdge)
      (state : List F64) (sk : ℚ) (msg : String),
      M.velocity edge = .ok sk →
      M.predictRF (sk / kmPerMile) (edge.gradeMille / 10) = .error msg →
      M.traversal_cost src edge dst state = .error (.PredictionModel msg)) ∧
    (∀ (M : RouteERandomForestModel) (src dst : GVertex) (edge : GEdge)
      (s0 : F64) (rest : List F64) (sk : ℚ),
      M.velocity edge = .ok sk →
      M.predictRF (sk / kmPerMile) (edge.gradeMille / 10) = .ok F64.nan →
      M.traversal_cost src edge dst (s0 :: rest) =
        .ok (F64.nan, F64.nan :: rest)) ∧
    (∀ (M : RouteERandomForestModel) (src dst : GVertex) (edge : GEdge)
      (s0 : F64) (rest : List F64) (sk : ℚ),
      M.velocity edge = .ok sk →
      M.predictRF (sk / kmPerMile) (edge.gradeMille / 10) = .ok F64.inf →
      0 < edge.distanceMeters →
      M.traversal_cost src edge dst (s0 :: rest) =
        .ok (F64.inf, (s0.add F64.inf) :: rest)) := by
  refine ⟨?_, ?_, ?_⟩
  · intro M src dst edge state sk msg hv hp
    unfold RouteERandomForestModel.traversal_cost
    rw [hv]
    dsimp only
    rw [hp]
  · intro M src dst edge s0 rest sk hv hp
    unfold RouteERandomForestModel.traversal_cost
    rw [hv]
    dsimp only
    rw [hp]
    dsimp only
    simp [F64.nan_mul, F64.nan_lt, F64.add_nan]
  · intro M src dst edge s0 rest sk hv hp hd
    unfold RouteERandomForestModel.traversal_cost
    rw [hv]
    dsimp only
    rw [hp]
    dsimp only
    have hdm : 0 < edge.distanceMeters / metersPerMile := by
      apply div_pos hd
      norm_num [metersPerMile]
    have hm : F64.inf.mul (F64.fin (edge.distanceMeters / metersPerMile)) =
        F64.inf := by
      simp [F64.mul, hdm]
    simp [hm, F64.inf_lt]

/-- Witness for the amended C5: a predictor error becomes
`PredictionModel`, and a +∞ prediction on a one-mile edge yields an `Ok`
result with +∞ cost and state entry. -/
theorem C5_prediction_error_amended_witness :
    (RouteERandomForestModel.traversal_cost
      ⟨fun _ => .ok 10, fun _ _ => .error "boom", .GallonsGasoline, F64.fin 0⟩
      ⟨0, (0, 0)⟩ ⟨0, 0, 1, metersPerMile, 0, 2⟩ ⟨1, (1, 0)⟩
      [F64.fin 0] = .error (.PredictionModel "boom")) ∧
    (RouteERandomForestModel.traversal_cost
      ⟨fun _ => .ok 10, fun _ _ => .ok F64.inf, .GallonsGasoline, F64.fin 0⟩
      ⟨0, (0, 0)⟩ ⟨0, 0, 1, metersPerMile, 0, 2⟩ ⟨1, (1, 0)⟩
      [F64.fin 0] = .ok (F64.inf, [(F64.fin 0).add F64.inf])) :=
  ⟨C5_prediction_error_amended.1
      ⟨fun _ => .ok 10, fun _ _ => .error "boom", .GallonsGasoline, F64.fin 0⟩
      ⟨0, (0, 0)⟩ ⟨1, (1, 0)⟩ ⟨0, 0, 1, metersPerMile, 0, 2⟩
      [F64.fin 0] 10 "boom" rfl rfl,
   C5_prediction_error_amended.2.2
      ⟨fun _ => .ok 10, fun _ _ => .ok F64.inf, .GallonsGasoline, F64.fin 0⟩
      ⟨0, (0, 0)⟩ ⟨1, (1, 0)⟩ ⟨0, 0, 1, metersPerMile, 0, 2⟩
      (F64.fin 0) [] 10 rfl rfl (by norm_num [metersPerMile])⟩

/-! ## Binary-search lemmas for claim C7 -/

/-- The binary-search loop never moves past its upper bound. -/
theorem fnAux_le_high (arr : List ℚ) (target : ℚ) :
    ∀ fuel low high, low ≤ high → fnAux arr target fuel low high ≤ high := by
  intro fuel
  induction fuel with
  | zero => intro low high h; simpa [fnAux] using h
  | succ n ih =>
    intro low high h
    by_cases hlt : low < high
    · rw [fnAux, if_pos hlt]
      by_cases hc : target ≤ arr.getD (low + (high - low) / 2) 0
      · rw [if_pos hc]
        exact le_trans (ih low (low + (high - low) / 2) (by omega)) (by omega)
      · rw [if_neg hc]
        exact ih (low + (high - low) / 2 + 1) high (by omega)
    · rw [fnAux, if_neg hlt]
      exact h

/-- When every array element is strictly below the target, the
binary-search loop climbs all the way to its upper bound. -/
theorem fnAux_all_lt (arr : List ℚ) (target : ℚ)
    (hall : ∀ i, i < arr.length → arr.getD i 0 < target) :
    ∀ fuel low high, high - low < fuel → low ≤ high → high < arr.length →
      fnAux arr target fuel low high = high := by
  intro fuel
  induction fuel with
  | zero => intro low high hf _ _; omega
  | succ n ih =>
    intro low high hf hle hlen
    by_cases hlt : low < high
    · have hmid : low + (high - low) / 2 < arr.length := by omega
      have hc : ¬ target ≤ arr.getD (low + (high - low) / 2) 0 :=
        not_le.mpr (hall _ hmid)
      rw [fnAux, if_pos hlt, if_neg hc]
      exact ih (low + (high - low) / 2 + 1) high (by omega) (by omega) hlen
    · rw [fnAux, if_neg hlt]
      omega

/-- On a strictly increasing axis with at least two coordinates,
`find_nearest_index` stays below the last cell exactly when the target
does not exceed the largest coordinate. In particular a target below the
smallest coordinate also yields an in-range index. -/
theorem find_nearest_index_lt_iff (arr : List ℚ) (target : ℚ)
    (hs : List.Chain' (· < ·) arr) (h2 : 2 ≤ arr.length) :
    find_nearest_index arr target < arr.length - 1 ↔
      target ≤ arr.getD (arr.length - 1) 0 := by
  have hpw : List.Pairwise (· < ·) arr := List.chain'_iff_pairwise.mp hs
  constructor
  · intro hidx
    by_contra hgt
    rw [not_le] at hgt
    have hall : ∀ i, i < arr.length → arr.getD i 0 < target := by
      intro i hi
      rcases Nat.lt_or_ge i (arr.length - 1) with hlt | hge
      · have hlast : arr.length - 1 < arr.length := by omega
        have := List.pairwise_iff_getElem.mp hpw i (arr.length - 1) hi hlast hlt
        rw [List.getD_eq_getElem _ _ hi]
        calc arr[i] < arr[arr.length - 1] := this
          _ = arr.getD (arr.length - 1) 0 :=
            (List.getD_eq_getElem _ _ hlast).symm
          _ < target := hgt
      · have : i = arr.length - 1 := by omega
        rw [this]
        exact hgt
    have hfa : fnLow arr target = arr.length - 1 :=
      fnAux_all_lt arr target hall arr.length 0 (arr.length - 1)
        (by omega) (by omega) (by omega)
    have : find_nearest_index arr target = arr.length - 1 := by
      unfold find_nearest_index
      rw [hfa, if_neg]
      rintro ⟨-, hc⟩
      exact absurd hc (not_le.mpr hgt)
    omega
  · intro hle
    have hlow : fnLow arr target ≤ arr.length - 1 :=
      fnAux_le_high arr target arr.length 0 (arr.length - 1) (by omega)
    unfold find_nearest_index
    rcases Nat.lt_or_ge (fnLow arr target) (arr.length - 1) with hlt | hge
    · split
      · omega
      · omega
    · have heq : fnLow arr target = arr.length - 1 := by omega
      rw [heq, if_pos ⟨by omega, hle⟩]
      omega

/-! ## Claim C7: interpolation bounds -/

/-- C7 counterexample: a grid accepted by `BilinearInterp::new`, and a
query point whose x coordinate -1 lies strictly below the smallest grid
x coordinate 0 (outside the grid bounds), on which `interpolate`
nevertheless returns `Ok` (it extrapolates below the grid) instead of the
error the claim requires. -/
theorem C7_out_of_bounds_counterexample :
    (BilinearInterp.new [0, 1, 2] [0, 1, 2]
      [[0, 2, 1], [2, 4, 3], [5, 0, 1]]).isOk = true ∧
    ((-1 : ℚ) < ([0, 1, 2] : List ℚ).getD 0 0) ∧
    (BilinearInterp.interpolate
      ⟨[0, 1, 2], [0, 1, 2], [[0, 2, 1], [2, 4, 3], [5, 0, 1]]⟩
      (-1) 1).isOk = true := by
  have hch : List.Chain' (· < ·) ([0, 1, 2] : List ℚ) := by
    norm_num [List.chain'_cons]
  refine ⟨?_, by norm_num, by decide⟩
  unfold BilinearInterp.new
  rw [if_neg (by norm_num), if_neg (by norm_num),
    if_neg (not_not.mpr hch), if_neg (not_not.mpr hch)]
  rfl

/-- C7 amended: on a grid with strictly increasing axes of at least two
coordinates each (which is what `new` accepts), `interpolate` returns
`Ok` exactly when the query point does not exceed the largest coordinate
on either axis; queries above the upper bounds error, but queries below
the smallest coordinates are extrapolated and return `Ok`. -/
theorem C7_interpolate_bounds_amended (g : BilinearInterp) (x y : ℚ)
    (hx : List.Chain' (· < ·) g.x) (hy : List.Chain' (· < ·) g.y)
    (hx2 : 2 ≤ g.x.length) (hy2 : 2 ≤ g.y.length) :
    (g.interpolate x y).isOk = true ↔
      (x ≤ g.x.getD (g.x.length - 1) 0 ∧ y ≤ g.y.getD (g.y.length - 1) 0) := by
  unfold BilinearInterp.interpolate
  by_cases hc : (g.x.length - 1 ≤ find_nearest_index g.x x ∨
      g.y.length - 1 ≤ find_nearest_index g.y y)
  · rw [if_pos hc]
    constructor
    · intro hfalse
      exact absurd hfalse (by simp [Except.isOk, Except.toBool])
    · rintro ⟨hbx, hby⟩
      exfalso
      rcases hc with hcx | hcy
      · have := (find_nearest_index_lt_iff g.x x hx hx2).mpr hbx
        omega
      · have := (find_nearest_index_lt_iff g.y y hy hy2).mpr hby
        omega
  · rw [if_neg hc]
    constructor
    · intro _
      push_neg at hc
      exact ⟨(find_nearest_index_lt_iff g.x x hx hx2).mp (by omega),
        (find_nearest_index_lt_iff g.y y hy hy2).mp (by omega)⟩
    · intro _
      rfl

/-- Witness for the amended C7: the corner query (2, 2) on the concrete
3x3 grid is within bounds and interpolates successfully. -/
theorem C7_interpolate_bounds_amended_witness :
    (BilinearInterp.interpolate
      ⟨[0, 1, 2], [0, 1, 2], [[0, 2, 1], [2, 4, 3], [5, 0, 1]]⟩
      2 2).isOk = true :=
  (C7_interpolate_bounds_amended
    ⟨[0, 1, 2], [0, 1, 2], [[0, 2, 1], [2, 4, 3], [5, 0, 1]]⟩ 2 2
    (by norm_num [List.chain'_cons]) (by norm_num [List.chain'_cons])
    (by norm_num) (by norm_num)).mpr ⟨by norm_num, by norm_num⟩

/-! ## StateModel lemmas: the indexed-map form -/

/-- Every entry of an enumerated feature list carries an index at least
the starting offset. -/
theorem StateModel.enumFeatures_index_ge {F : Type} (l : List (String × F)) :
    ∀ (k : ℕ) x,
      x ∈ (List.enumFrom k l).map
        (fun p => ((p.2.1 : String), (⟨p.1, p.2.2⟩ : IndexedStateFeature F))) →
      k ≤ x.2.index := by
  induction l with
  | nil => intro k x hx; simp at hx
  | cons a t ih =>
    intro k x hx
    rw [List.enumFrom_cons, List.map_cons, List.mem_cons] at hx
    rcases hx with rfl | hx
    · exact le_refl k
    · exact le_trans (Nat.le_succ k) (ih (k + 1) x hx)

/-- An enumerated feature list is sorted by stored index. -/
theorem StateModel.enumFeatures_pairwise {F : Type} (l : List (String × F)) :
    ∀ (k : ℕ),
      List.Pairwise (fun a b => decide (a.2.index ≤ b.2.index) = true)
        ((List.enumFrom k l).map
          (fun p => ((p.2.1 : String), (⟨p.1, p.2.2⟩ : IndexedStateFeature F)))) := by
  induction l with
  | nil => intro k; simp
  | cons a t ih =>
    intro k
    rw [List.enumFrom_cons, List.map_cons]
    refine List.Pairwise.cons ?_ (ih (k + 1))
    intro x hx
    have := StateModel.enumFeatures_index_ge t (k + 1) x hx
    simpa using by omega

/-- Looking up an enumerated feature list by stored index recovers the
positional entry of the underlying list. -/
theorem StateModel.enumFrom_find?_index {F : Type} (l : List (String × F)) :
    ∀ (k i : ℕ),
      ((List.enumFrom k l).map
        (fun p => ((p.2.1 : String), (⟨p.1, p.2.2⟩ : IndexedStateFeature F)))).find?
          (fun p => p.2.index == k + i) =
        (l.get? i).map (fun nf => (nf.1, ⟨k + i, nf.2⟩)) := by
  induction l with
  | nil => intro k i; simp
  | cons a t ih =>
    intro k i
    rw [List.enumFrom_cons, List.map_cons, List.find?_cons]
    cases i with
    | zero => simp
    | succ j =>
      have hne : (k == k + (j + 1)) = false := by
        simp only [beq_eq_false_iff_ne, ne_eq]
        omega
      simp only [hne]
      have := ih (k + 1) j
      rw [show k + (j + 1) = (k + 1) + j by omega]
      rw [this]
      rfl

/-- Looking up an enumerated feature list by name pairs the name's first
positional match with its absolute index. -/
theorem StateModel.enumFrom_find?_name {F : Type} (n : String)
    (l : List (String × F)) :
    ∀ (k : ℕ),
      ((List.enumFrom k l).map
        (fun p => ((p.2.1 : String), (⟨p.1, p.2.2⟩ : IndexedStateFeature F)))).find?
          (fun p => n == p.1) =
        match l.find? (fun p => n == p.1), l.findIdx? (fun p => n == p.1) k with
        | some nf, some j => some (nf.1, ⟨j, nf.2⟩)
        | _, _ => none := by
  induction l with
  | nil => intro k; simp
  | cons a t ih =>
    intro k
    rw [List.enumFrom_cons, List.map_cons, List.find?_cons, List.find?_cons,
      List.findIdx?_cons]
    by_cases h : n = a.1
    · simp [h]
    · have hb : (n == a.1) = false := beq_eq_false_iff_ne.mpr h
      simp only [hb]
      exact ih (k + 1)

/-- `findIdx?` succeeds exactly when `find?` does, at any offset. -/
theorem StateModel.findIdx?_isSome_eq {α : Type} (p : α → Bool) (l : List α) :
    ∀ k, (l.findIdx? p k).isSome = (l.find? p).isSome := by
  induction l with
  | nil => intro k; rfl
  | cons a t ih =>
    intro k
    rw [List.findIdx?_cons, List.find?_cons]
    cases hp : p a
    · simpa using ih (k + 1)
    · rfl

/-! ## StateModel lemmas: buildSorted behaves as the sorted lookup -/

/-- The arity dispatch preserves the feature count. -/
theorem StateModel.buildSorted_len {F : Type} (l : List (String × F)) :
    (StateModel.buildSorted l).len = l.length := by
  rcases l with _ | ⟨⟨k1, v1⟩, _ | ⟨⟨k2, v2⟩, _ | ⟨⟨k3, v3⟩, _ | ⟨⟨k4, v4⟩,
    _ | ⟨⟨k5, v5⟩, rest⟩⟩⟩⟩⟩ <;>
    simp [StateModel.buildSorted, StateModel.len, StateModel.enumFeatures]

/-- Indexed access through any arity variant is positional access into
the underlying list. -/
theorem StateModel.buildSorted_get {F : Type} (l : List (String × F)) (i : ℕ) :
    (StateModel.buildSorted l).get i = l.get? i := by
  rcases l with _ | ⟨⟨k1, v1⟩, _ | ⟨⟨k2, v2⟩, _ | ⟨⟨k3, v3⟩, _ | ⟨⟨k4, v4⟩,
    _ | ⟨⟨k5, v5⟩, rest⟩⟩⟩⟩⟩
  · simp [StateModel.buildSorted, StateModel.get]
  · rcases i with _ | _ | i <;> rfl
  · rcases i with _ | _ | _ | i <;> rfl
  · rcases i with _ | _ | _ | _ | i <;> rfl
  · rcases i with _ | _ | _ | _ | _ | i <;> rfl
  · show (StateModel.NFeatures (StateModel.enumFeatures _)).get i = _
    simp only [StateModel.get, StateModel.enumFeatures]
    have := StateModel.enumFrom_find?_index
      ((k1, v1) :: (k2, v2) :: (k3, v3) :: (k4, v4) :: (k5, v5) :: rest) 0 i
    rw [show (0 : ℕ) + i = i from by omega] at this
    rw [this]
    rcases ((k1, v1) :: (k2, v2) :: (k3, v3) :: (k4, v4) :: (k5, v5) :: rest).get? i
      with _ | nf <;> rfl

/-- Name-to-index resolution through any arity variant is the first
positional index of the name in the underlying list. -/
theorem StateModel.buildSorted_get_index {F : Type} (l : List (String × F))
    (n : String) :
    (StateModel.buildSorted l).get_index n =
      match l.findIdx? (fun p => n == p.1) with
      | some j => .ok j
      | none => .error (.UnknownFeature n) := by
  rcases l with _ | ⟨⟨k1, v1⟩, _ | ⟨⟨k2, v2⟩, _ | ⟨⟨k3, v3⟩, _ | ⟨⟨k4, v4⟩,
    _ | ⟨⟨k5, v5⟩, rest⟩⟩⟩⟩⟩
  · rfl
  · cases hb1 : (n == k1) <;>
      simp [StateModel.buildSorted, StateModel.get_index, List.findIdx?_cons, hb1]
  · cases hb1 : (n == k1) <;> cases hb2 : (n == k2) <;>
      simp [StateModel.buildSorted, StateModel.get_index, List.findIdx?_cons,
        hb1, hb2]
  · cases hb1 : (n == k1) <;> cases hb2 : (n == k2) <;> cases hb3 : (n == k3) <;>
      simp [StateModel.buildSorted, StateModel.get_index, List.findIdx?_cons,
        hb1, hb2, hb3]
  · cases hb1 : (n == k1) <;> cases hb2 : (n == k2) <;> cases hb3 : (n == k3) <;>
      cases hb4 : (n == k4) <;>
      simp [StateModel.buildSorted, StateModel.get_index, List.findIdx?_cons,
        hb1, hb2, hb3, hb4]
  · show (StateModel.NFeatures (StateModel.enumFeatures _)).get_index n = _
    simp only [StateModel.get_index, StateModel.enumFeatures]
    rw [StateModel.enumFrom_find?_name]
    rcases hf : ((k1, v1) :: (k2, v2) :: (k3, v3) :: (k4, v4) :: (k5, v5) ::
        rest).find? (fun p => n == p.1) with _ | nf <;>
      rcases hi : ((k1, v1) :: (k2, v2) :: (k3, v3) :: (k4, v4) :: (k5, v5) ::
        rest).findIdx? (fun p => n == p.1) with _ | j
    · rw [hf, hi]
    · have := StateModel.findIdx?_isSome_eq (fun p => n == p.1)
        ((k1, v1) :: (k2, v2) :: (k3, v3) :: (k4, v4) :: (k5, v5) :: rest) 0
      rw [hf, hi] at this
      simp at this
    · have := StateModel.findIdx?_isSome_eq (fun p => n == p.1)
        ((k1, v1) :: (k2, v2) :: (k3, v3) :: (k4, v4) :: (k5, v5) :: rest) 0
      rw [hf, hi] at this
      simp at this
    · rw [hf, hi]

/-- Name-to-feature resolution through any arity variant is the first
positional match of the name in the underlying list. -/
theorem StateModel.buildSorted_get_feature {F : Type} (l : List (String × F))
    (n : String) :
    (StateModel.buildSorted l).get_feature n =
      match l.find? (fun p => n == p.1) with
      | some nf => .ok nf.2
      | none => .error (.UnknownFeature n) := by
  rcases l with _ | ⟨⟨k1, v1⟩, _ | ⟨⟨k2, v2⟩, _ | ⟨⟨k3, v3⟩, _ | ⟨⟨k4, v4⟩,
    _ | ⟨⟨k5, v5⟩, rest⟩⟩⟩⟩⟩
  · rfl
  · cases hb1 : (n == k1) <;>
      simp [StateModel.buildSorted, StateModel.get_feature, List.find?_cons, hb1]
  · cases hb1 : (n == k1) <;> cases hb2 : (n == k2) <;>
      simp [StateModel.buildSorted, StateModel.get_feature, List.find?_cons,
        hb1, hb2]
  · cases hb1 : (n == k1) <;> cases hb2 : (n == k2) <;> cases hb3 : (n == k3) <;>
      simp [StateModel.buildSorted, StateModel.get_feature, List.find?_cons,
        hb1, hb2, hb3]
  · cases hb1 : (n == k1) <;> cases hb2 : (n == k2) <;> cases hb3 : (n == k3) <;>
      cases hb4 : (n == k4) <;>
      simp [StateModel.buildSorted, StateModel.get_feature, List.find?_cons,
        hb1, hb2, hb3, hb4]
  · show (StateModel.NFeatures (StateModel.enumFeatures _)).get_feature n = _
    simp only [StateModel.get_feature, StateModel.enumFeatures]
    rw [StateModel.enumFrom_find?_name]
    rcases hf : ((k1, v1) :: (k2, v2) :: (k3, v3) :: (k4, v4) :: (k5, v5) ::
        rest).find? (fun p => n == p.1) with _ | nf <;>
      rcases hi : ((k1, v1) :: (k2, v2) :: (k3, v3) :: (k4, v4) :: (k5, v5) ::
        rest).findIdx? (fun p => n == p.1) with _ | j
    · rw [hf, hi]
    · have := StateModel.findIdx?_isSome_eq (fun p => n == p.1)
        ((k1, v1) :: (k2, v2) :: (k3, v3) :: (k4, v4) :: (k5, v5) :: rest) 0
      rw [hf, hi] at this
      simp at this
    · have := StateModel.findIdx?_isSome_eq (fun p => n == p.1)
        ((k1, v1) :: (k2, v2) :: (k3, v3) :: (k4, v4) :: (k5, v5) :: rest) 0
      rw [hf, hi] at this
      simp at this
    · rw [hf, hi]

/-- `IntoIterator` through any arity variant lists the entries in index
order, which is the enumeration of the underlying list. -/
theorem StateModel.buildSorted_intoIter {F : Type} (l : List (String × F)) :
    (StateModel.buildSorted l).intoIter = StateModel.enumFeatures l := by
  rcases l with _ | ⟨⟨k1, v1⟩, _ | ⟨⟨k2, v2⟩, _ | ⟨⟨k3, v3⟩, _ | ⟨⟨k4, v4⟩,
    _ | ⟨⟨k5, v5⟩, rest⟩⟩⟩⟩⟩
  · simp [StateModel.buildSorted, StateModel.intoIter, StateModel.enumFeatures,
      List.mergeSort_nil]
  · rfl
  · rfl
  · rfl
  · rfl
  · show (StateModel.NFeatures (StateModel.enumFeatures _)).intoIter = _
    unfold StateModel.intoIter
    exact List.mergeSort_of_sorted (StateModel.enumFeatures_pairwise _ 0)

/-- A model whose `len` and `get` agree positionally with a list
enumerates that list through the `StateModelIter` loop. -/
theorem StateModel.iterAux_eq {F : Type} (m : StateModel F) :
    ∀ (t : List (String × F)) (k : ℕ),
      (∀ j, m.get (k + j) = t.get? j) → k + t.length ≤ m.len →
      StateModel.iterAux m t.length k = t := by
  intro t
  induction t with
  | nil => intro k _ _; rfl
  | cons a t' ih =>
    intro k hget hlen
    show StateModel.iterAux m (t'.length + 1) k = a :: t'
    rw [StateModel.iterAux, if_pos (by simp at hlen; omega)]
    have h0 : m.get (k + 0) = some a := by rw [hget 0]; rfl
    rw [show k + 0 = k from rfl] at h0
    rw [h0]
    show a :: m.iterAux t'.length (k + 1) = a :: t'
    congr 1
    refine ih (k + 1) ?_ ?_
    · intro j
      have hj := hget (j + 1)
      rw [show k + 1 + j = k + (j + 1) from by omega, hj]
      rfl
    · simp only [List.length_cons] at hlen
      omega

/-- `iter` on a model built from a sorted list returns that list. -/
theorem StateModel.iter_buildSorted {F : Type} (l : List (String × F)) :
    (StateModel.buildSorted l).iter = l := by
  unfold StateModel.iter
  rw [StateModel.buildSorted_len]
  refine StateModel.iterAux_eq (StateModel.buildSorted l) l 0 ?_ ?_
  · intro j
    rw [show (0 : ℕ) + j = j from by omega]
    exact StateModel.buildSorted_get l j
  · rw [StateModel.buildSorted_len]
    omega

/-! ## StateModel lemmas: the NFeatures form of any feature list -/

/-- The indexed-map form has one entry per feature. -/
theorem StateModel.nFeatures_len {F : Type} (s : List (String × F)) :
    (StateModel.NFeatures (StateModel.enumFeatures s)).len = s.length := by
  simp [StateModel.len, StateModel.enumFeatures]

/-- Indexed access in the indexed-map form is positional access. -/
theorem StateModel.nFeatures_get {F : Type} (s : List (String × F)) (i : ℕ) :
    (StateModel.NFeatures (StateModel.enumFeatures s)).get i = s.get? i := by
  simp only [StateModel.get, StateModel.enumFeatures]
  have := StateModel.enumFrom_find?_index s 0 i
  rw [show (0 : ℕ) + i = i from by omega] at this
  rw [this]
  rcases s.get? i with _ | nf <;> rfl

/-- Name-to-index resolution in the indexed-map form is the first
positional index of the name. -/
theorem StateModel.nFeatures_get_index {F : Type} (s : List (String × F))
    (n : String) :
    (StateModel.NFeatures (StateModel.enumFeatures s)).get_index n =
      match s.findIdx? (fun p => n == p.1) with
      | some j => .ok j
      | none => .error (.UnknownFeature n) := by
  simp only [StateModel.get_index, StateModel.enumFeatures]
  rw [StateModel.enumFrom_find?_name]
  rcases hf : s.find? (fun p => n == p.1) with _ | nf <;>
    rcases hi : s.findIdx? (fun p => n == p.1) with _ | j
  · rw [hf, hi]
  · have := StateModel.findIdx?_isSome_eq (fun p => n == p.1) s 0
    rw [hf, hi] at this
    simp at this
  · have := StateModel.findIdx?_isSome_eq (fun p => n == p.1) s 0
    rw [hf, hi] at this
    simp at this
  · rw [hf, hi]

/-- Name-to-feature resolution in the indexed-map form is the first
positional match of the name. -/
theorem StateModel.nFeatures_get_feature {F : Type} (s : List (String × F))
    (n : String) :
    (StateModel.NFeatures (StateModel.enumFeatures s)).get_feature n =
      match s.find? (fun p => n == p.1) with
      | some nf => .ok nf.2
      | none => .error (.UnknownFeature n) := by
  simp only [StateModel.get_feature, StateModel.enumFeatures]
  rw [StateModel.enumFrom_find?_name]
  rcases hf : s.find? (fun p => n == p.1) with _ | nf <;>
    rcases hi : s.findIdx? (fun p => n == p.1) with _ | j
  · rw [hf, hi]
  · have := StateModel.findIdx?_isSome_eq (fun p => n == p.1) s 0
    rw [hf, hi] at this
    simp at this
  · have := StateModel.findIdx?_isSome_eq (fun p => n == p.1) s 0
    rw [hf, hi] at this
    simp at this
  · rw [hf, hi]

/-- `IntoIterator` of the indexed-map form keeps the enumeration order,
which is already sorted by index. -/
theorem StateModel.nFeatures_intoIter {F : Type} (s : List (String × F)) :
    (StateModel.NFeatures (StateModel.enumFeatures s)).intoIter =
      StateModel.enumFeatures s := by
  simp only [StateModel.intoIter]
  exact List.mergeSort_of_sorted (StateModel.enumFeatures_pairwise s 0)

/-- `iter` of the indexed-map form returns the underlying list. -/
theorem StateModel.iter_nFeatures {F : Type} (s : List (String × F)) :
    (StateModel.NFeatures (StateModel.enumFeatures s)).iter = s := by
  unfold StateModel.iter
  rw [StateModel.nFeatures_len]
  refine StateModel.iterAux_eq _ s 0 ?_ ?_
  · intro j
    rw [show (0 : ℕ) + j = j from by omega]
    exact StateModel.nFeatures_get s j
  · rw [StateModel.nFeatures_len]
    omega

/-- All derived StateModel operations are determined by `get_index`,
`get_feature` and `iter`: two models agreeing on those agree on
`contains_key`, `get_value`, `update_state`, the typed getter and setter
patterns, `initial_state` and `to_vec`. -/
theorem StateModel.derived_ops_congr {F : Type} (m1 m2 : StateModel F)
    (hgi : ∀ n, m1.get_index n = m2.get_index n)
    (hgf : ∀ n, m1.get_feature n = m2.get_feature n)
    (hit : m1.iter = m2.iter) :
    (∀ n, m1.contains_key n = m2.contains_key n) ∧
    (∀ state n, m1.get_value state n = m2.get_value state n) ∧
    (∀ state n v, m1.update_state state n v = m2.update_state state n v) ∧
    (∀ dec state n, m1.getTyped dec state n = m2.getTyped dec state n) ∧
    (∀ enc state n v, m1.setTyped enc state n v = m2.setTyped enc state n v) ∧
    (∀ ini, StateModel.initial_state ini m1 = StateModel.initial_state ini m2) ∧
    m1.to_vec = m2.to_vec := by
  have hgv : ∀ state n, m1.get_value state n = m2.get_value state n := by
    intro state n
    unfold StateModel.get_value
    rw [hgi]
  have hus : ∀ state n v, m1.update_state state n v = m2.update_state state n v := by
    intro state n v
    unfold StateModel.update_state
    rw [hgi]
  refine ⟨?_, hgv, hus, ?_, ?_, ?_, ?_⟩
  · intro n
    unfold StateModel.contains_key
    rw [hgi]
  · intro dec state n
    unfold StateModel.getTyped
    rw [hgv, hgf]
  · intro enc state n v
    unfold StateModel.setTyped
    rw [hgf]
    simp only [hus]
  · intro ini
    unfold StateModel.initial_state
    rw [hit]
  · unfold StateModel.to_vec
    rw [hit]

/-! ## Claim C6: small-N specializations vs the indexed-map form -/

/-- C6: for a feature list with at most 4 entries and distinct names, the
specialized variant that `StateModel::new` builds is semantically
indistinguishable from the `NFeatures` indexed-map form built from the
same list: `len`, indexed access, `get_index`, `get_feature`,
`contains_key`, iteration order (`iter` and `IntoIterator`),
`initial_state`, `to_vec`, raw value access and the typed getter/setter
patterns (for every unit or codec conversion) all agree. -/
theorem C6_small_model_equivalence {F : Type} (l : List (String × F))
    (_hlen4 : l.length ≤ 4) (_hnd : (l.map Prod.fst).Nodup) :
    (StateModel.new l).len = (StateModel.nFeaturesForm l).len ∧
    (∀ i, (StateModel.new l).get i = (StateModel.nFeaturesForm l).get i) ∧
    (∀ n, (StateModel.new l).get_index n =
      (StateModel.nFeaturesForm l).get_index n) ∧
    (∀ n, (StateModel.new l).get_feature n =
      (StateModel.nFeaturesForm l).get_feature n) ∧
    (StateModel.new l).iter = (StateModel.nFeaturesForm l).iter ∧
    (StateModel.new l).intoIter = (StateModel.nFeaturesForm l).intoIter ∧
    (∀ n, (StateModel.new l).contains_key n =
      (StateModel.nFeaturesForm l).contains_key n) ∧
    (∀ state n, (StateModel.new l).get_value state n =
      (StateModel.nFeaturesForm l).get_value state n) ∧
    (∀ state n v, (StateModel.new l).update_state state n v =
      (StateModel.nFeaturesForm l).update_state state n v) ∧
    (∀ dec state n, (StateModel.new l).getTyped dec state n =
      (StateModel.nFeaturesForm l).getTyped dec state n) ∧
    (∀ enc state n v, (StateModel.new l).setTyped enc state n v =
      (StateModel.nFeaturesForm l).setTyped enc state n v) ∧
    (∀ ini, StateModel.initial_state ini (StateModel.new l) =
      StateModel.initial_state ini (StateModel.nFeaturesForm l)) ∧
    (StateModel.new l).to_vec = (StateModel.nFeaturesForm l).to_vec := by
  have hgi : ∀ n, (StateModel.new l).get_index n =
      (StateModel.nFeaturesForm l).get_index n := by
    intro n
    rw [StateModel.new, StateModel.nFeaturesForm,
      StateModel.buildSorted_get_index, StateModel.nFeatures_get_index]
  have hgf : ∀ n, (StateModel.new l).get_feature n =
      (StateModel.nFeaturesForm l).get_feature n := by
    intro n
    rw [StateModel.new, StateModel.nFeaturesForm,
      StateModel.buildSorted_get_feature, StateModel.nFeatures_get_feature]
  have hit : (StateModel.new l).iter = (StateModel.nFeaturesForm l).iter := by
    rw [StateModel.new, StateModel.nFeaturesForm,
      StateModel.iter_buildSorted, StateModel.iter_nFeatures]
  obtain ⟨hck, hgv, hus, hgt, hst, hini, htv⟩ :=
    StateModel.derived_ops_congr _ _ hgi hgf hit
  refine ⟨?_, ?_, hgi, hgf, hit, ?_, hck, hgv, hus, hgt, hst, hini, htv⟩
  · rw [StateModel.new, StateModel.nFeaturesForm,
      StateModel.buildSorted_len, StateModel.nFeatures_len]
  · intro i
    rw [StateModel.new, StateModel.nFeaturesForm,
      StateModel.buildSorted_get, StateModel.nFeatures_get]
  · rw [StateModel.new, StateModel.nFeaturesForm,
      StateModel.buildSorted_intoIter, StateModel.nFeatures_intoIter]

/-- Witness for C6: a concrete two-feature model, with the specialized
`TwoFeatures` variant and the indexed-map form agreeing on an index
lookup and on iteration order. -/
theorem C6_small_model_equivalence_witness :
    ((StateModel.new [("time", (0 : ℕ)), ("distance", 1)]).get_index
        "distance" =
      (StateModel.nFeaturesForm [("time", 0), ("distance", 1)]).get_index
        "distance") ∧
    ((StateModel.new [("time", (0 : ℕ)), ("distance", 1)]).iter =
      (StateModel.nFeaturesForm [("time", 0), ("distance", 1)]).iter) :=
  ⟨(C6_small_model_equivalence [("time", 0), ("distance", 1)]
      (by norm_num) (by decide)).2.2.1 "distance",
   (C6_small_model_equivalence [("time", 0), ("distance", 1)]
      (by norm_num) (by decide)).2.2.2.2.1⟩

/-! ## StateModel lemmas: name lookup under permutation and filtering -/

/-- With distinct names, the first name match is the same in any
permutation of an entry list. -/
theorem StateModel.find?_name_perm {F : Type} (n : String)
    {l1 l2 : List (String × F)} (h : l1.Perm l2) :
    (l1.map Prod.fst).Nodup →
      l1.find? (fun p => n == p.1) = l2.find? (fun p => n == p.1) := by
  induction h with
  | nil => intro _; rfl
  | cons x h ih =>
    intro hn
    rw [List.map_cons] at hn
    rw [List.find?_cons, List.find?_cons]
    cases hx : (n == x.1)
    · exact ih (List.nodup_cons.mp hn).2
    · rfl
  | swap x y l =>
    intro hn
    rw [List.map_cons, List.map_cons] at hn
    have hyx : y.1 ≠ x.1 := by
      have hni := (List.nodup_cons.mp hn).1
      intro he
      exact hni (by rw [he]; exact List.mem_cons_self _ _)
    rw [List.find?_cons, List.find?_cons, List.find?_cons, List.find?_cons]
    cases hby : (n == y.1) <;> cases hbx : (n == x.1)
    · rfl
    · rfl
    · rfl
    · exact absurd ((beq_iff_eq.mp hby).symm.trans (beq_iff_eq.mp hbx)) hyx
  | trans h1 h2 ih1 ih2 =>
    intro hn
    rw [ih1 hn, ih2 (((h1.map Prod.fst).nodup_iff).mp hn)]

/-- Filtering with a predicate that keeps every match of `p` does not
change the first match of `p`. -/
theorem StateModel.find?_filter_of_kept {α : Type} (p q : α → Bool)
    (l : List α) (h : ∀ x, p x = true → q x = true) :
    (l.filter q).find? p = l.find? p := by
  induction l with
  | nil => rfl
  | cons a t ih =>
    rw [List.filter_cons, List.find?_cons]
    cases hp : p a
    · cases hq : q a
      · rw [if_neg (by simp [hq])]
        exact ih
      · rw [if_pos (by simp [hq]), List.find?_cons, hp]
        exact ih
    · rw [if_pos (by simp [h a hp]), List.find?_cons, hp]

/-- `get_index` and `get_feature` succeed together on any built model. -/
theorem StateModel.buildSorted_isOk_eq {F : Type} (s : List (String × F))
    (n : String) :
    ((StateModel.buildSorted s).get_index n).isOk =
      ((StateModel.buildSorted s).get_feature n).isOk := by
  rw [StateModel.buildSorted_get_index, StateModel.buildSorted_get_feature]
  rcases hf : s.find? (fun p => n == p.1) with _ | nf <;>
    rcases hi : s.findIdx? (fun p => n == p.1) with _ | j
  · rw [hf, hi]
    rfl
  · have := StateModel.findIdx?_isSome_eq (fun p => n == p.1) s 0
    rw [hf, hi] at this
    simp at this
  · have := StateModel.findIdx?_isSome_eq (fun p => n == p.1) s 0
    rw [hf, hi] at this
    simp at this
  · rw [hf, hi]
    rfl

/-- A built model resolves a name exactly when the name occurs in the
feature list it was built from. -/
theorem StateModel.new_get_feature_isOk {F : Type} (l : List (String × F))
    (n : String) :
    ((StateModel.new l).get_feature n).isOk = true ↔ n ∈ l.map Prod.fst := by
  rw [StateModel.new, StateModel.buildSorted_get_feature]
  have hperm : (StateModel.sortFeatures l).Perm l :=
    List.mergeSort_perm l _
  rcases hf : (StateModel.sortFeatures l).find? (fun p => n == p.1) with _ | nf
  · rw [hf]
    simp only [Except.isOk, Except.toBool, Bool.false_eq_true, false_iff]
    rw [List.find?_eq_none] at hf
    intro hmem
    rcases List.mem_map.mp hmem with ⟨x, hx, rfl⟩
    exact hf x (hperm.mem_iff.mpr hx) (by simp)
  · rw [hf]
    simp only [Except.isOk, Except.toBool, true_iff]
    have hmem := List.mem_of_find?_eq_some hf
    have hb := List.find?_some hf
    rw [beq_iff_eq.mp hb]
    exact List.mem_map_of_mem Prod.fst (hperm.mem_iff.mp hmem)

/-! ## Claim C8: extend adds or overwrites features by name -/

/-- C8: `extend` succeeds, and in the result every name occurring in the
entry list resolves to its feature from the entries (a collision with the
base model takes the new value), every name of the base model not
occurring in the entries keeps its original feature, every other name is
`UnknownFeature`, and the extended model contains exactly the union of
the two name sets. -/
theorem C8_extend_semantics {F : Type} (l es : List (String × F))
    (hl : (l.map Prod.fst).Nodup) (hes : (es.map Prod.fst).Nodup) :
    ∃ m', (StateModel.new l).extend es = .ok m' ∧
      (∀ n, m'.get_feature n =
        match es.find? (fun p => n == p.1) with
        | some p => .ok p.2
        | none =>
          match l.find? (fun p => n == p.1) with
          | some p => .ok p.2
          | none => .error (.UnknownFeature n)) ∧
      (∀ n, m'.contains_key n = true ↔
        n ∈ es.map Prod.fst ∨ n ∈ l.map Prod.fst) := by
  have hsperm : (StateModel.sortFeatures l).Perm l := List.mergeSort_perm l _
  have hsnd : ((StateModel.sortFeatures l).map Prod.fst).Nodup :=
    ((hsperm.map Prod.fst).nodup_iff).mpr hl
  have hiter : (StateModel.new l).iter = StateModel.sortFeatures l :=
    StateModel.iter_buildSorted (StateModel.sortFeatures l)
  set ow := (es.filter
    (fun e => ((StateModel.new l).get_feature e.1).isOk)).map Prod.fst with how_def
  set all := ((StateModel.new l).iter.filter
    (fun p => !(ow.contains p.1))) ++ es with hall_def
  have hall2 : all = ((StateModel.sortFeatures l).filter
      (fun p => !(ow.contains p.1))) ++ es := by
    rw [hall_def, hiter]
  have how : ∀ a, a ∈ ow ↔ a ∈ es.map Prod.fst ∧ a ∈ l.map Prod.fst := by
    intro a
    rw [how_def]
    constructor
    · intro ha
      rcases List.mem_map.mp ha with ⟨e, hef, rfl⟩
      rcases List.mem_filter.mp hef with ⟨hee, hok⟩
      exact ⟨List.mem_map_of_mem Prod.fst hee,
        (StateModel.new_get_feature_isOk l e.1).mp hok⟩
    · rintro ⟨haes, hal⟩
      rcases List.mem_map.mp haes with ⟨e, hee, rfl⟩
      refine List.mem_map_of_mem Prod.fst (List.mem_filter.mpr ⟨hee, ?_⟩)
      exact (StateModel.new_get_feature_isOk l e.1).mpr hal
  have hallnd : (all.map Prod.fst).Nodup := by
    rw [hall2, List.map_append]
    refine List.nodup_append.mpr ⟨?_, hes, ?_⟩
    · exact List.Nodup.sublist
        ((List.filter_sublist _).map Prod.fst) hsnd
    · intro a haf haes
      rcases List.mem_map.mp haf with ⟨x, hxf, rfl⟩
      rcases List.mem_filter.mp hxf with ⟨hxs, hkeep⟩
      have hxl : x.1 ∈ l.map Prod.fst :=
        List.mem_map_of_mem Prod.fst (hsperm.mem_iff.mp hxs)
      have : x.1 ∈ ow := (how x.1).mpr ⟨haes, hxl⟩
      simp [this] at hkeep
  have hsall : (StateModel.sortFeatures all).Perm all := List.mergeSort_perm all _
  have hsallnd : ((StateModel.sortFeatures all).map Prod.fst).Nodup :=
    ((hsall.map Prod.fst).nodup_iff).mpr hallnd
  have hchar : ∀ n, (StateModel.new all).get_feature n =
      match es.find? (fun p => n == p.1) with
      | some p => .ok p.2
      | none =>
        match l.find? (fun p => n == p.1) with
        | some p => .ok p.2
        | none => .error (.UnknownFeature n) := by
    intro n
    rw [StateModel.new, StateModel.buildSorted_get_feature,
      StateModel.find?_name_perm n hsall hsallnd, hall2, List.find?_append]
    rcases hesf : es.find? (fun p => n == p.1) with _ | e
    · rw [hesf]
      have hnes : n ∉ es.map Prod.fst := by
        rw [List.find?_eq_none] at hesf
        intro hmem
        rcases List.mem_map.mp hmem with ⟨x, hx, rfl⟩
        exact hesf x hx (by simp)
      have hkept : ((StateModel.sortFeatures l).filter
          (fun p => !(ow.contains p.1))).find? (fun p => n == p.1) =
          (StateModel.sortFeatures l).find? (fun p => n == p.1) := by
        refine StateModel.find?_filter_of_kept _ _ _ ?_
        intro x hb
        have hxn : x.1 = n := (beq_iff_eq.mp hb).symm
        have : x.1 ∉ ow := by
          rw [hxn]
          intro hin
          exact hnes ((how n).mp hin).1
        simp [this]
      rw [hkept, StateModel.find?_name_perm n hsperm hsnd]
      rcases l.find? (fun p => n == p.1) with _ | p <;> simp
    · rw [hesf]
      have hne : n ∈ es.map Prod.fst := by
        have := List.find?_some hesf
        rw [beq_iff_eq.mp this]
        exact List.mem_map_of_mem Prod.fst (List.mem_of_find?_eq_some hesf)
      have hflnone : ((StateModel.sortFeatures l).filter
          (fun p => !(ow.contains p.1))).find? (fun p => n == p.1) = none := by
        rw [List.find?_eq_none]
        intro x hx hb
        rcases List.mem_filter.mp hx with ⟨hxs, hkeep⟩
        have hxn : x.1 = n := (beq_iff_eq.mp hb).symm
        have hxl : x.1 ∈ l.map Prod.fst :=
          List.mem_map_of_mem Prod.fst (hsperm.mem_iff.mp hxs)
        have : x.1 ∈ ow := (how x.1).mpr ⟨hxn ▸ hne, hxl⟩
        simp [this] at hkeep
      rw [hflnone]
      simp
  refine ⟨StateModel.new all, rfl, hchar, ?_⟩
  intro n
  have hck : (StateModel.new all).contains_key n =
      ((StateModel.new all).get_feature n).isOk := by
    unfold StateModel.contains_key
    exact StateModel.buildSorted_isOk_eq (StateModel.sortFeatures all) n
  rw [hck, hchar n]
  rcases hesf : es.find? (fun p => n == p.1) with _ | e
  · rw [hesf]
    rcases hlf : l.find? (fun p => n == p.1) with _ | p
    · rw [hlf]
      simp only [Except.isOk, Except.toBool, Bool.false_eq_true, false_iff]
      rintro (hmem | hmem)
      · rw [List.find?_eq_none] at hesf
        rcases List.mem_map.mp hmem with ⟨x, hx, rfl⟩
        exact hesf x hx (by simp)
      · rw [List.find?_eq_none] at hlf
        rcases List.mem_map.mp hmem with ⟨x, hx, rfl⟩
        exact hlf x hx (by simp)
    · rw [hlf]
      simp only [Except.isOk, Except.toBool, true_iff]
      refine Or.inr ?_
      have := List.find?_some hlf
      rw [beq_iff_eq.mp this]
      exact List.mem_map_of_mem Prod.fst (List.mem_of_find?_eq_some hlf)
  · rw [hesf]
    simp only [Except.isOk, Except.toBool, true_iff]
    refine Or.inl ?_
    have := List.find?_some hesf
    rw [beq_iff_eq.mp this]
    exact List.mem_map_of_mem Prod.fst (List.mem_of_find?_eq_some hesf)

/-- Witness for C8: extending a one-feature model with a colliding entry
takes the new value and keeps the name set. -/
theorem C8_extend_semantics_witness :
    ∃ m', (StateModel.new [("distance", (0 : ℕ))]).extend
        [("distance", 7), ("time", 3)] = .ok m' ∧
      m'.get_feature "distance" = .ok 7 ∧
      m'.get_feature "time" = .ok 3 ∧
      (m'.contains_key "grade" = true ↔
        ("grade" : String) ∈ (["distance", "time"] : List String) ∨
        ("grade" : String) ∈ (["distance"] : List String)) := by
  obtain ⟨m', heq, hfeat, hmem⟩ :=
    C8_extend_semantics [("distance", (0 : ℕ))] [("distance", 7), ("time", 3)]
      (by decide) (by decide)
  refine ⟨m', heq, ?_, ?_, ?_⟩
  · rw [hfeat "distance"]
    rfl
  · rw [hfeat "time"]
    rfl
  · exact hmem "grade"

/-! ## Haversine and sweep lemmas for claim C2 -/

/-- The haversine distance is never negative. -/
theorem coord_distance_km_nonneg (c1 c2 : ℚ × ℚ) :
    0 ≤ coord_distance_km c1 c2 := by
  unfold coord_distance_km
  have h1 : 0 ≤ Real.arcsin (Real.sqrt (Real.sin (((c2.2 : ℝ) * Real.pi / 180 -
      (c1.2 : ℝ) * Real.pi / 180) / 2) ^ 2 +
      Real.cos ((c1.2 : ℝ) * Real.pi / 180) *
      Real.cos ((c2.2 : ℝ) * Real.pi / 180) *
      Real.sin (((c2.1 : ℝ) * Real.pi / 180 -
      (c1.1 : ℝ) * Real.pi / 180) / 2) ^ 2)) :=
    Real.arcsin_nonneg.mpr (Real.sqrt_nonneg _)
  exact mul_nonneg (by norm_num) (mul_nonneg (by norm_num) h1)

/-- Comparison of two finite values decides the rational order. -/
theorem F64.fin_lt_fin (a b : ℚ) :
    (F64.fin a).lt (F64.fin b) = decide (a < b) := rfl

/-- Multiplication of two finite values is exact. -/
theorem F64.fin_mul_fin (a b : ℚ) :
    (F64.fin a).mul (F64.fin b) = F64.fin (a * b) := rfl

/-- Addition of two finite values is exact. -/
theorem F64.fin_add_fin (a b : ℚ) :
    (F64.fin a).add (F64.fin b) = F64.fin (a + b) := rfl

/-- The minimum-update fold with a constant candidate value computes the
minimum of the seed and the candidate. -/
theorem fold_min_const (c : ℚ) (pts : List (ℚ × ℚ)) :
    ∀ (a : ℚ),
      (pts.foldl
        (fun acc (_ : ℚ × ℚ) =>
          match acc with
          | .error e => .error e
          | .ok m => .ok (if (F64.fin c).lt m then F64.fin c else m))
        (.ok (F64.fin a)) : Except TraversalModelError F64) =
      .ok (F64.fin (if pts.isEmpty then a else if c < a then c else a)) := by
  induction pts with
  | nil => intro a; rfl
  | cons p rest ih =>
    intro a
    rw [List.foldl_cons]
    dsimp only
    simp only [F64.fin_lt_fin, decide_eq_true_eq]
    by_cases hca : c < a
    · rw [if_pos hca, ih c]
      simp [lt_irrefl, hca]
    · rw [if_neg hca, ih a]
      simp [hca]

/-- The minimum-energy sweep over a constant predictor folds to the
constant-or-seed minimum. -/
theorem newMinimum_fold_const (pred : ℚ → ℚ → Except String F64) (c : ℚ)
    (hp : ∀ s g, pred s g = .ok (F64.fin c)) (pts : List (ℚ × ℚ)) :
    ∀ (a : ℚ),
      (pts.foldl
        (fun acc p =>
          match acc with
          | .error e => .error e
          | .ok m =>
            match pred p.1 p.2 with
            | .error e => .error (.PredictionModel e)
            | .ok v => .ok (if v.lt m then v else m))
        (.ok (F64.fin a)) : Except TraversalModelError F64) =
      .ok (F64.fin (if pts.isEmpty then a else if c < a then c else a)) := by
  intro a
  have hfun : (fun (acc : Except TraversalModelError F64) (p : ℚ × ℚ) =>
      (match acc with
      | .error e => .error e
      | .ok m =>
        match pred p.1 p.2 with
        | .error e => .error (.PredictionModel e)
        | .ok v => .ok (if v.lt m then v else m) :
        Except TraversalModelError F64)) =
      (fun acc (_ : ℚ × ℚ) =>
        (match acc with
        | .error e => .error e
        | .ok m => .ok (if (F64.fin c).lt m then F64.fin c else m) :
        Except TraversalModelError F64)) := by
    funext acc p
    rcases acc with e | mm
    · rfl
    · rw [hp p.1 p.2]
  rw [hfun]
  exact fold_min_const c pts a

/-- The sweep grid contains the point (1 mph, -20 percent). -/
theorem sweepPoints_mem_first :
    ((1 : ℚ), (-20 : ℚ)) ∈ RouteERandomForestModel.sweepPoints := by
  unfold RouteERandomForestModel.sweepPoints
  have h0a : (0 : ℕ) ∈ List.range 99 := List.mem_range.mpr (by norm_num)
  have h0b : (0 : ℕ) ∈ List.range 40 := List.mem_range.mpr (by norm_num)
  refine List.mem_flatMap.mpr ⟨0, h0a, ?_⟩
  have hpair : ((((0 : ℕ) : ℚ)) + 1, (((0 : ℕ) : ℚ)) - 20) =
      ((1 : ℚ), (-20 : ℚ)) := by
    rw [Prod.mk.injEq]
    constructor <;> norm_num
  rw [← hpair]
  exact List.mem_map_of_mem
    (fun j : ℕ => ((((0 : ℕ) : ℚ)) + 1, ((j : ℚ)) - 20)) h0b

/-- `RouteERandomForestModel::new` with a constant finite predictor below
`f64::MAX` stores exactly that constant as `minimum_energy_per_mile`. -/
theorem newMinimum_const (pred : ℚ → ℚ → Except String F64) (c : ℚ)
    (hp : ∀ s g, pred s g = .ok (F64.fin c)) (hc : c < F64.f64MAX) :
    RouteERandomForestModel.newMinimum pred = .ok (F64.fin c) := by
  unfold RouteERandomForestModel.newMinimum
  rw [newMinimum_fold_const pred c hp RouteERandomForestModel.sweepPoints
    F64.f64MAX]
  have hne : RouteERandomForestModel.sweepPoints.isEmpty = false := by
    rw [Bool.eq_false_iff]
    intro h
    rw [List.isEmpty_iff] at h
    have := sweepPoints_mem_first
    rw [h] at this
    simp at this
  rw [hne]
  simp [hc]

/-! ## Claim C2: admissibility of the sweep-minimum heuristic

The heuristic multiplies the straight-line haversine mileage by the
minimum predictor output over the integer sweep grid. Nothing ties either
factor to what a path actually costs: an edge's stored distance is
arbitrary data. The counterexample uses a constant predictor (so the
sweep minimum is exact) and a zero-length edge between two far-apart
coordinates: the realized path costs 0 while the heuristic is positive. -/

/-- C2 counterexample: with the constant-1 gallons/mile predictor, the
model built by `new` stores `minimum_energy_per_mile = 1`; a one-edge
path from (lon 0, lat 0) to (lon 90, lat 0) whose edge has
`distance = 0` realizes total cost 0, yet `cost_estimate` between those
vertices is strictly positive — so the heuristic exceeds the cost of a
realized path. -/
theorem C2_admissibility_counterexample :
    (RouteERandomForestModel.newMinimum (fun _ _ => .ok (F64.fin 1)) =
      .ok (F64.fin 1)) ∧
    (RouteERandomForestModel.realizedCost
      ⟨fun _ => .ok 10, fun _ _ => .ok (F64.fin 1), .GallonsGasoline, F64.fin 1⟩
      [(⟨0, (0, 0)⟩, ⟨0, 0, 1, 0, 0, 2⟩, ⟨1, (90, 0)⟩)]
      [F64.fin 0] (F64.fin 0) = .ok (F64.fin 0, [F64.fin 0])) ∧
    0 < RouteERandomForestModel.cost_estimate
      ⟨fun _ => .ok 10, fun _ _ => .ok (F64.fin 1), .GallonsGasoline, F64.fin 1⟩
      ⟨0, (0, 0)⟩ ⟨1, (90, 0)⟩ := by
  refine ⟨newMinimum_const _ 1 (fun _ _ => rfl)
    (by norm_num [F64.f64MAX]), ?_, ?_⟩
  · have ht : RouteERandomForestModel.traversal_cost
        ⟨fun _ => .ok 10, fun _ _ => .ok (F64.fin 1), .GallonsGasoline,
          F64.fin 1⟩
        ⟨0, (0, 0)⟩ ⟨0, 0, 1, 0, 0, 2⟩ ⟨1, (90, 0)⟩ [F64.fin 0] =
        .ok (F64.fin 0, [F64.fin 0]) := by
      unfold RouteERandomForestModel.traversal_cost
      dsimp only
      norm_num [F64.mul, F64.lt, F64.add]
    simp only [RouteERandomForestModel.realizedCost, ht]
    simp [RouteERandomForestModel.realizedCost, F64.add]
  · unfold RouteERandomForestModel.cost_estimate coord_distance_km
    dsimp only
    push_cast
    rw [show ((0 : ℝ) * Real.pi / 180 - 0 * Real.pi / 180) / 2 = 0 by ring,
      show ((90 : ℝ) * Real.pi / 180 - 0 * Real.pi / 180) / 2 = Real.pi / 4 by
        ring]
    have ha : (0 : ℝ) < Real.sin 0 ^ 2 + Real.cos (0 * Real.pi / 180) *
        Real.cos (0 * Real.pi / 180) * Real.sin (Real.pi / 4) ^ 2 := by
      have hs : 0 < Real.sin (Real.pi / 4) :=
        Real.sin_pos_of_pos_of_lt_pi (by positivity)
          (by nlinarith [Real.pi_pos])
      have hc : Real.cos ((0 : ℝ) * Real.pi / 180) = 1 := by
        norm_num
      rw [hc]
      nlinarith [hs, sq_nonneg (Real.sin 0)]
    have harc : 0 < Real.arcsin (Real.sqrt (Real.sin 0 ^ 2 +
        Real.cos (0 * Real.pi / 180) * Real.cos (0 * Real.pi / 180) *
        Real.sin (Real.pi / 4) ^ 2)) :=
      Real.arcsin_pos.mpr (Real.sqrt_pos.mpr ha)
    have hkm : (0 : ℝ) < ((kmPerMile : ℚ) : ℝ) := by
      norm_num [kmPerMile]
    have : (0 : ℝ) < 6371 * (2 * Real.arcsin (Real.sqrt (Real.sin 0 ^ 2 +
        Real.cos (0 * Real.pi / 180) * Real.cos (0 * Real.pi / 180) *
        Real.sin (Real.pi / 4) ^ 2))) := by positivity
    have hr : (F64.fin 1).toRealOrZero = 1 := by simp [F64.toRealOrZero]
    rw [hr]
    rw [mul_one]
    positivity

/-- Along any successfully realized path, the accumulated cost is finite
and bounded below by the starting accumulator plus the sweep lower bound
times the path mileage (clamping only raises per-edge costs). -/
theorem realizedCost_lower {M : RouteERandomForestModel} {m : ℚ}
    (hpred : ∀ s g q, M.predictRF s g = .ok q →
      ∃ p : ℚ, q = F64.fin p ∧ m ≤ p) :
    ∀ (path : List (GVertex × GEdge × GVertex)) (s0 : List F64) (a : ℚ)
      (c : F64) (st : List F64),
      (∀ t ∈ path, 0 ≤ t.2.1.distanceMeters) →
      RouteERandomForestModel.realizedCost M path s0 (F64.fin a) = .ok (c, st) →
      ∃ r : ℚ, c = F64.fin r ∧
        a + m * (path.map
          (fun t => t.2.1.distanceMeters / metersPerMile)).sum ≤ r ∧
        a ≤ r := by
  intro path
  induction path with
  | nil =>
    intro s0 a c st _ hrun
    simp only [RouteERandomForestModel.realizedCost] at hrun
    refine ⟨a, ?_, by simp, le_refl a⟩
    cases hrun
    rfl
  | cons t rest ih =>
    intro s0 a c st hdist hrun
    rcases t with ⟨tu, te, tv⟩
    simp only [RouteERandomForestModel.realizedCost] at hrun
    rcases ht : M.traversal_cost tu te tv s0 with e | ⟨ce, s2⟩
    · rw [ht] at hrun
      simp at hrun
    · rw [ht] at hrun
      dsimp only at hrun
      unfold RouteERandomForestModel.traversal_cost at ht
      rcases hv : M.velocity te with e | sk
      · rw [hv] at ht
        simp at ht
      · rw [hv] at ht
        dsimp only at ht
        rcases hp : M.predictRF (sk / kmPerMile) (te.gradeMille / 10)
          with e | q
        · rw [hp] at ht
          simp at ht
        · rw [hp] at ht
          obtain ⟨p, rfl, hmp⟩ := hpred _ _ _ hp
          dsimp only at ht
          simp only [F64.fin_mul_fin, F64.fin_lt_fin, decide_eq_true_eq] at ht
          have hdm : (0 : ℚ) ≤ te.distanceMeters / metersPerMile := by
            refine div_nonneg ?_ (by norm_num [metersPerMile])
            exact hdist ⟨tu, te, tv⟩ (List.mem_cons_self _ _)
          have hmd : m * (te.distanceMeters / metersPerMile) ≤
              p * (te.distanceMeters / metersPerMile) :=
            mul_le_mul_of_nonneg_right hmp hdm
          by_cases hneg : p * (te.distanceMeters / metersPerMile) < 0
          · rw [if_pos hneg] at ht
            injection ht with hpair
            injection hpair with hce hs2
            subst hce
            subst hs2
            rw [F64.fin_add_fin] at hrun
            obtain ⟨r, hcr, hrb, hra⟩ := ih _ (a + 0) c st
              (fun x hx => hdist x (List.mem_cons_of_mem _ hx)) hrun
            refine ⟨r, hcr, ?_, by linarith⟩
            rw [List.map_cons, List.sum_cons]
            have hmd0 : m * (te.distanceMeters / metersPerMile) ≤ 0 := by
              linarith
            nlinarith [hrb]
          · rw [if_neg hneg] at ht
            injection ht with hpair
            injection hpair with hce hs2
            subst hce
            subst hs2
            rw [F64.fin_add_fin] at hrun
            obtain ⟨r, hcr, hrb, hra⟩ := ih _
              (a + p * (te.distanceMeters / metersPerMile)) c st
              (fun x hx => hdist x (List.mem_cons_of_mem _ hx)) hrun
            refine ⟨r, hcr, ?_, ?_⟩
            · rw [List.map_cons, List.sum_cons]
              nlinarith [hrb]
            · push_neg at hneg
              linarith

/-- C2 amended: the heuristic is admissible under the side conditions the
code implicitly assumes: the stored sweep minimum is a finite global
lower bound of the predictor (not just over the integer grid), edge
distances are non-negative, and the haversine mileage between the
endpoints is at most the path's total mileage. Under those hypotheses,
every successfully realized path from `u` to `v` has finite total cost at
least `cost_estimate u v`. Without them the claim fails
(see the counterexample: the grid minimum need not bound the realized
costs, and an edge's stored length need not dominate the straight-line
distance). -/
theorem C2_admissibility_amended (M : RouteERandomForestModel)
    (u v : GVertex) (path : List (GVertex × GEdge × GVertex))
    (s0 : List F64) (m : ℚ)
    (hmin : M.minimum_energy_per_mile = F64.fin m)
    (hpred : ∀ s g q, M.predictRF s g = .ok q →
      ∃ p : ℚ, q = F64.fin p ∧ m ≤ p)
    (hdist : ∀ t ∈ path, 0 ≤ t.2.1.distanceMeters)
    (hgeo : coord_distance_km u.coordinate v.coordinate /
        ((kmPerMile : ℚ) : ℝ) ≤
      (((path.map (fun t => t.2.1.distanceMeters / metersPerMile)).sum : ℚ) : ℝ))
    (c : F64) (st : List F64)
    (hrun : RouteERandomForestModel.realizedCost M path s0 (F64.fin 0) =
      .ok (c, st)) :
    ∃ r : ℚ, c = F64.fin r ∧
      RouteERandomForestModel.cost_estimate M u v ≤ (r : ℝ) := by
  obtain ⟨r, hcr, hrb, hra⟩ := realizedCost_lower hpred path s0 0 c st hdist hrun
  refine ⟨r, hcr, ?_⟩
  unfold RouteERandomForestModel.cost_estimate
  rw [hmin]
  have hto : (F64.fin m).toRealOrZero = (m : ℝ) := by simp [F64.toRealOrZero]
  rw [hto]
  have hD0 : 0 ≤ coord_distance_km u.coordinate v.coordinate /
      ((kmPerMile : ℚ) : ℝ) := by
    refine div_nonneg (coord_distance_km_nonneg _ _) ?_
    norm_num [kmPerMile]
  rcases le_or_lt 0 m with hm | hm
  · have h1 : coord_distance_km u.coordinate v.coordinate /
        ((kmPerMile : ℚ) : ℝ) * (m : ℝ) ≤
        (((path.map (fun t => t.2.1.distanceMeters / metersPerMile)).sum :
          ℚ) : ℝ) * (m : ℝ) :=
      mul_le_mul_of_nonneg_right hgeo (by exact_mod_cast hm)
    have h2 : m * (path.map
        (fun t => t.2.1.distanceMeters / metersPerMile)).sum ≤ r := by
      linarith
    calc coord_distance_km u.coordinate v.coordinate /
          ((kmPerMile : ℚ) : ℝ) * (m : ℝ) ≤ _ := h1
      _ ≤ (r : ℝ) := by
        rw [mul_comm]
        exact_mod_cast h2
  · have h1 : coord_distance_km u.coordinate v.coordinate /
        ((kmPerMile : ℚ) : ℝ) * (m : ℝ) ≤ 0 := by
      have hm' : (m : ℝ) ≤ 0 := by exact_mod_cast hm.le
      nlinarith
    have h2 : (0 : ℝ) ≤ (r : ℝ) := by exact_mod_cast hra
    linarith

/-- Witness for the amended C2: the trivial path at a single vertex with
a constant predictor; the heuristic is 0 and the realized cost is 0. -/
theorem C2_admissibility_amended_witness :
    ∃ r : ℚ, F64.fin 0 = F64.fin r ∧
      RouteERandomForestModel.cost_estimate
        ⟨fun _ => .ok 10, fun _ _ => .ok (F64.fin 1), .GallonsGasoline,
          F64.fin 1⟩ ⟨0, (0, 0)⟩ ⟨0, (0, 0)⟩ ≤ (r : ℝ) := by
  have hgeo : coord_distance_km ((0 : ℚ), (0 : ℚ)) ((0 : ℚ), (0 : ℚ)) /
      ((kmPerMile : ℚ) : ℝ) ≤
      ((((List.nil.map (fun t : GVertex × GEdge × GVertex =>
        t.2.1.distanceMeters / metersPerMile)).sum : ℚ) : ℝ)) := by
    have hzero : coord_distance_km ((0 : ℚ), (0 : ℚ)) ((0 : ℚ), (0 : ℚ)) = 0 := by
      unfold coord_distance_km
      norm_num
    rw [hzero]
    simp
  exact C2_admissibility_amended
    ⟨fun _ => .ok 10, fun _ _ => .ok (F64.fin 1), .GallonsGasoline, F64.fin 1⟩
    ⟨0, (0, 0)⟩ ⟨0, (0, 0)⟩ [] [F64.fin 0] 1 rfl
    (fun s g q h => ⟨1, (Except.ok.inj h).symm, le_refl 1⟩)
    (fun t ht => absurd ht (List.not_mem_nil t))
    hgeo (F64.fin 0) [F64.fin 0] rfl

/-! ## Claim C10: out_edges / in_edges error semantics -/

/-- C10: `Graph::out_edges(v)` fails with `VertexWithoutOutEdges` exactly
when `v` is at or beyond the length of the adjacency array, and an
in-range vertex with an empty adjacency map yields `Ok []`; symmetrically
for `in_edges` over `rev`. -/
theorem C10_out_edges_error_semantics (g : Graph) (v : ℕ) :
    (g.out_edges v = .error (.VertexWithoutOutEdges v) ↔ g.adj.length ≤ v) ∧
    (g.adj.get? v = some [] → g.out_edges v = .ok []) ∧
    (g.in_edges v = .error (.VertexWithoutInEdges v) ↔ g.rev.length ≤ v) ∧
    (g.rev.get? v = some [] → g.in_edges v = .ok []) := by
  refine ⟨?_, ?_, ?_, ?_⟩
  · unfold Graph.out_edges
    rcases h : g.adj.get? v with _ | row
    · simp only [true_iff]
      exact List.get?_eq_none.mp h
    · simp only [reduceCtorEq, false_iff, not_le]
      exact List.get?_eq_some.mp h |>.choose
  · intro h
    unfold Graph.out_edges
    rw [h]
    rfl
  · unfold Graph.in_edges
    rcases h : g.rev.get? v with _ | row
    · simp only [true_iff]
      exact List.get?_eq_none.mp h
    · simp only [reduceCtorEq, false_iff, not_le]
      exact List.get?_eq_some.mp h |>.choose
  · intro h
    unfold Graph.in_edges
    rw [h]
    rfl

/-- Witness for C10 at a concrete two-vertex graph: vertex 0 has empty
adjacency rows (isolated vertex, not an error) and vertex 5 is out of
range (errors). -/
theorem C10_out_edges_error_semantics_witness :
    (Graph.out_edges ⟨[[], [(0, 0)]], [[], []], [], []⟩ 0 = .ok []) ∧
    (Graph.in_edges ⟨[[], [(0, 0)]], [[], []], [], []⟩ 0 = .ok []) ∧
    (Graph.out_edges ⟨[[], [(0, 0)]], [[], []], [], []⟩ 5 =
      .error (.VertexWithoutOutEdges 5)) :=
  ⟨(C10_out_edges_error_semantics ⟨[[], [(0, 0)]], [[], []], [], []⟩ 0).2.1 rfl,
   (C10_out_edges_error_semantics ⟨[[], [(0, 0)]], [[], []], [], []⟩ 0).2.2.2 rfl,
   (C10_out_edges_error_semantics ⟨[[], [(0, 0)]], [[], []], [], []⟩ 5).1.mpr
     (by decide)⟩

end Compass
